import Mathlib

/-!
Verification development for the dynamic memory allocator in
`src/malloclab/malloclab-handout/mm.c` (explicit free list, first fit,
boundary-tag coalescing).

Shallow embedding conventions:
* Addresses are byte addresses (natural numbers).  Every 32-bit
  header/footer access and every 64-bit link access performed by
  `mm.c` is 4-byte aligned, so memory is represented at 32-bit word
  granularity: `Mem` is a journal of `(word index, word value)` pairs,
  newest first, with absent words reading as 0 (the region driver
  hands out zeroed memory); the word index of byte address `a` is
  `a / 4`.  The heap region handed out by the region driver
  (`mem_sbrk`) starts at `MBASE = 8` (a nonzero double-word aligned
  base, so that the first block pointer `MBASE + 16 = 24` is
  double-word aligned and the null pointer 0 is distinct from every
  heap address).  `mem_sbrk` never fails in the model: the region is
  unbounded, and `brk` records its high end.
* 32-bit header/footer words are read/written with `load32`/`store32`;
  64-bit free-list link pointers (`char *` on a 64-bit host) with
  `load64`/`store64` (a little-endian pair of adjacent words); single
  bytes (for `memcpy`) with `loadByte`/`storeByte`.
* `GET_SIZE(p) = GET(p) & ~0x7` is `sizeField`, `GET_ALLOC(p) = GET(p) & 0x1`
  is `allocField`, `PACK(size, alloc) = size | alloc` is `PACK` (the C
  call sites only ever pack a multiple of 8 with a bit).
* C pointer arithmetic appears as `Nat` arithmetic; the C expression
  `HDRP(bp) = bp - WSIZE` becomes truncated subtraction (all reachable
  block pointers satisfy `bp ≥ MBASE + 16`, so truncation never fires
  on heap addresses; for `bp = 0` the C program computes the out-of-heap
  address -4 and the model the out-of-heap address 0, both below `MBASE`).
* The unbounded `while` loops of `find_fit` and `mm_checkheap` take a
  fuel argument; every concrete evaluation in this file uses fuel
  far above the length of any list it walks.
-/

namespace MM

/-- Word-granular memory: a journal of `(word index, word value)`
pairs, newest first; an absent word reads as 0. -/
abbrev Mem := List (Nat × Nat)

/-- Read the 32-bit word with word index `i`. -/
def wread (m : Mem) (i : Nat) : Nat :=
  match m with
  | [] => 0
  | e :: rest => if e.1 = i then e.2 else wread rest i

/-- Write the 32-bit word with word index `i` (value reduced mod 2^32). -/
def wwrite (m : Mem) (i v : Nat) : Mem := (i, v % 4294967296) :: m

/-- `GET(p)` on a `uint32_t` header/footer word at byte address `a`. -/
def load32 (m : Mem) (a : Nat) : Nat := wread m (a / 4)

/-- `PUT(p, val)` on a `uint32_t` header/footer word at byte address `a`. -/
def store32 (m : Mem) (a v : Nat) : Mem := wwrite m (a / 4) v

/-- Read a stored `char *` (64-bit host pointer): `GET_NEXT`/`GET_PREV`. -/
def load64 (m : Mem) (a : Nat) : Nat :=
  wread m (a / 4) + 4294967296 * wread m (a / 4 + 1)

/-- Write a stored `char *` (64-bit host pointer): `SET_NEXT`/`SET_PREV`. -/
def store64 (m : Mem) (a v : Nat) : Mem :=
  wwrite (wwrite m (a / 4) (v % 4294967296)) (a / 4 + 1) (v / 4294967296)

/-- Read the byte at byte address `a` (little-endian within its word). -/
def loadByte (m : Mem) (a : Nat) : Nat := wread m (a / 4) / 256 ^ (a % 4) % 256

/-- Write the byte at byte address `a` (read-modify-write of its word). -/
def storeByte (m : Mem) (a v : Nat) : Mem :=
  let w := wread m (a / 4)
  let k := 256 ^ (a % 4)
  wwrite m (a / 4) (w / (k * 256) * (k * 256) + v % 256 * k + w % k)

/-- `GET_SIZE`: clear the low three bits (`v & ~0x7`). -/
def sizeField (v : Nat) : Nat := 8 * (v / 8)

/-- `GET_ALLOC`: the low bit (`v & 0x1`). -/
def allocField (v : Nat) : Nat := v % 2

/-- `PACK(size, alloc) = size | alloc`. -/
def PACK (size alloc : Nat) : Nat := size ||| alloc

/-- `WSIZE`: word size in bytes. -/
def WSIZE : Nat := 4

/-- `DSIZE`: double word size in bytes. -/
def DSIZE : Nat := 8

/-- `CHUNKSIZE`: default region-growth amount, `1 << 16`. -/
def CHUNKSIZE : Nat := 65536

/-- `OVERHEAD`: header plus footer bytes. -/
def OVERHEAD : Nat := 8

/-- Base address of the managed region (`mem_heap_lo()`). -/
def MBASE : Nat := 8

/-- `HDRP(bp)`: address of the header of block `bp`. -/
def HDRP (bp : Nat) : Nat := bp - 4

/-- `FTRP(bp)`: address of the footer of block `bp` (reads the header). -/
def FTRP (m : Mem) (bp : Nat) : Nat := bp + sizeField (load32 m (HDRP bp)) - 8

/-- `NEXT_BLKP(bp)`. -/
def NEXT_BLKP (m : Mem) (bp : Nat) : Nat := bp + sizeField (load32 m (bp - 4))

/-- `PREV_BLKP(bp)`. -/
def PREV_BLKP (m : Mem) (bp : Nat) : Nat := bp - sizeField (load32 m (bp - 8))

/-- Allocator state: memory, region high end (`mem_sbrk` break), the
globals `heap_listp` and `free_listp`, and the two `static int`
variables `size` and `count` of `find_fit`. -/
structure AState where
  mem : Mem
  brk : Nat
  heap_listp : Nat
  free_listp : Nat
  ff_size : Nat
  ff_count : Nat

/-- `edit_free_list(bp, i)`: `i ≠ 0` inserts `bp` at the head of the
doubly linked free list, `i = 0` unlinks `bp` from it. -/
def edit_free_list (s : AState) (bp : Nat) (i : Nat) : AState :=
  if i ≠ 0 then
    let m1 := if s.free_listp ≠ 0 then
        store64 (store64 s.mem (s.free_listp + 8) bp) bp s.free_listp
      else store64 s.mem bp 0
    let m2 := store64 m1 (bp + 8) 0
    { s with mem := m2, free_listp := bp }
  else
    let prev := load64 s.mem (bp + 8)
    let next := load64 s.mem bp
    let s1 := if prev ≠ 0 then { s with mem := store64 s.mem prev next }
      else { s with free_listp := next }
    if next ≠ 0 then { s1 with mem := store64 s1.mem (next + 8) prev } else s1

/-- `coalesce(bp)`: boundary-tag coalescing; returns the new state and
the pointer to the coalesced block. -/
def coalesce (s : AState) (bp : Nat) : AState × Nat :=
  let pb := PREV_BLKP s.mem bp
  let prev_alloc := allocField (load32 s.mem (FTRP s.mem pb)) ≠ 0 ∨ pb = bp
  let next_alloc := allocField (load32 s.mem (HDRP (NEXT_BLKP s.mem bp))) ≠ 0
  let size := sizeField (load32 s.mem (HDRP bp))
  if prev_alloc ∧ next_alloc then
    (edit_free_list s bp 1, bp)
  else if prev_alloc ∧ ¬next_alloc then
    -- Case 2
    let size2 := size + sizeField (load32 s.mem (HDRP (NEXT_BLKP s.mem bp)))
    let s1 := edit_free_list s (NEXT_BLKP s.mem bp) 0
    let m1 := store32 s1.mem (HDRP bp) (PACK size2 0)
    let m2 := store32 m1 (FTRP m1 bp) (PACK size2 0)
    (edit_free_list { s1 with mem := m2 } bp 1, bp)
  else if ¬prev_alloc ∧ next_alloc then
    -- Case 3
    let size3 := size + sizeField (load32 s.mem (HDRP pb))
    let m1 := store32 s.mem (HDRP pb) (PACK size3 0)
    let m2 := store32 m1 (FTRP m1 pb) (PACK size3 0)
    let s1 := edit_free_list { s with mem := m2 } pb 0
    (edit_free_list s1 pb 1, pb)
  else
    -- Case 4
    let size4 := size + sizeField (load32 s.mem (HDRP pb))
      + sizeField (load32 s.mem (FTRP s.mem (NEXT_BLKP s.mem bp)))
    let s1 := edit_free_list s (NEXT_BLKP s.mem bp) 0
    let pb1 := PREV_BLKP s1.mem bp
    let m1 := store32 s1.mem (HDRP pb1) (PACK size4 0)
    let pb2 := PREV_BLKP m1 bp
    let m2 := store32 m1 (FTRP m1 pb2) (PACK size4 0)
    let pb3 := PREV_BLKP m2 bp
    let s2 := edit_free_list { s1 with mem := m2 } pb3 0
    (edit_free_list s2 pb3 1, pb3)

/-- The amount `extend_heap(words)` grows the region by: an even number
of words, and at least 24 bytes. -/
def extendSize (words : Nat) : Nat :=
  let sz := if words % 2 = 1 then (words + 1) * 4 else words * 4
  if sz < 24 then 24 else sz

/-- `extend_heap(words)`: grow the region, lay down a free block over
the new space and a fresh epilogue header, and coalesce. -/
def extend_heap (s : AState) (words : Nat) : AState × Nat :=
  let size := extendSize words
  let bp := s.brk
  let s1 := { s with brk := s.brk + size }
  let m1 := store32 s1.mem (HDRP bp) (PACK size 0)
  let m2 := store32 m1 (FTRP m1 bp) (PACK size 0)
  let m3 := store32 m2 (HDRP (NEXT_BLKP m2 bp)) (PACK 0 1)
  coalesce { s1 with mem := m3 } bp

/-- `place(bp, asize)`: allocate `asize` bytes at the start of free
block `bp`, splitting when the remainder is at least `DSIZE*3 = 24`
bytes.  The C remainder `csize - asize` is computed in `uint32_t`
arithmetic. -/
def place (s : AState) (bp asize : Nat) : AState :=
  let csize := sizeField (load32 s.mem (HDRP bp))
  let s1 := edit_free_list s bp 0
  let rsize := (csize + 4294967296 - asize) % 4294967296
  if 24 ≤ rsize then
    let m1 := store32 s1.mem (HDRP bp) (PACK asize 1)
    let m2 := store32 m1 (FTRP m1 bp) (PACK asize 1)
    let bp2 := NEXT_BLKP m2 bp
    let m3 := store32 m2 (HDRP bp2) (PACK rsize 0)
    let m4 := store32 m3 (FTRP m3 bp2) (PACK rsize 0)
    edit_free_list { s1 with mem := m4 } bp2 1
  else
    let m1 := store32 s1.mem (HDRP bp) (PACK csize 1)
    let m2 := store32 m1 (FTRP m1 bp) (PACK csize 1)
    { s1 with mem := m2 }

/-- The first-fit scan of `find_fit` (`while(fp) ...`), with fuel. -/
def ffScan (m : Mem) (asize : Nat) : Nat → Nat → Option Nat
  | _, 0 => none
  | fp, fuel + 1 =>
    if fp = 0 then none
    else if asize ≤ sizeField (load32 m (HDRP fp)) then some fp
    else ffScan m asize (load64 m fp) fuel

/-- `find_fit(asize)`: when the static `size` equals `asize` and the
static `count` exceeds 40, bypass the scan and extend the heap by
`MAX(asize, 4*WSIZE)`; otherwise update `count` and run the first-fit
scan, recording `asize` in the static `size` on success. -/
def find_fit (s : AState) (asize : Nat) (fuel : Nat) : AState × Option Nat :=
  if s.ff_size = asize ∧ 40 < s.ff_count then
    let r := extend_heap s (max asize (4 * WSIZE) / 4)
    (r.1, some r.2)
  else
    let s1 := if s.ff_size = asize then { s with ff_count := s.ff_count + 1 }
      else { s with ff_count := 0 }
    match ffScan s1.mem asize s1.free_listp fuel with
    | some fp => ({ s1 with ff_size := asize }, some fp)
    | none => (s1, none)

/-- `mm_init()`: alignment pad, prologue header/footer, epilogue header,
empty free list, then one `CHUNKSIZE` extension. -/
def mm_init (s : AState) : AState :=
  let hl := s.brk
  let s1 := { s with brk := s.brk + 4 * WSIZE }
  let m1 := store32 s1.mem hl 0
  let m2 := store32 m1 (hl + WSIZE) (PACK OVERHEAD 1)
  let m3 := store32 m2 (hl + DSIZE) (PACK OVERHEAD 1)
  let m4 := store32 m3 (hl + WSIZE + DSIZE) (PACK 0 1)
  let s2 := { s1 with mem := m4, heap_listp := hl, free_listp := 0 }
  (extend_heap s2 (CHUNKSIZE / WSIZE)).1

/-- Fuel used by the top-level operations for the free-list scan and
the checker walks; far above the length of any list walked in this
file. -/
def FUEL : Nat := 1000000

/-- The adjusted block size computed by `mm_malloc`: requests of at
most `DSIZE` bytes are clamped to `DSIZE + OVERHEAD = 16`, larger ones
rounded up to a multiple of `DSIZE` after adding the overhead. -/
def adjSize (size : Nat) : Nat :=
  if size ≤ DSIZE then DSIZE + OVERHEAD
  else DSIZE * ((size + OVERHEAD + (DSIZE - 1)) / DSIZE)

/-- `mm_malloc(size)`: lazy initialization, spurious-request check,
size adjustment, first-fit search, and placement (extending the region
by `MAX(asize, CHUNKSIZE)` when no fit is found). -/
def mm_malloc (s : AState) (size : Nat) : Option Nat × AState :=
  let s0 := if s.heap_listp = 0 then mm_init s else s
  if size = 0 then (none, s0)
  else
    let asize := adjSize size
    let r := find_fit s0 asize FUEL
    match r.2 with
    | some bp => (some bp, place r.1 bp asize)
    | none =>
      let extendsize := max asize CHUNKSIZE
      let r2 := extend_heap r.1 (extendsize / WSIZE)
      (some r2.2, place r2.1 r2.2 asize)

/-- `mm_free(bp)`: the header of `bp` is read (to get the block size)
before the null check; for non-null `bp` both boundary tags are marked
free and the block is coalesced. -/
def mm_free (s : AState) (bp : Nat) : AState :=
  let size := sizeField (load32 s.mem (HDRP bp))
  if bp = 0 then s
  else
    let s1 := if s.heap_listp = 0 then mm_init s else s
    let m1 := store32 s1.mem (HDRP bp) (PACK size 0)
    let m2 := store32 m1 (FTRP m1 bp) (PACK size 0)
    (coalesce { s1 with mem := m2 } bp).1

/-- Byte-wise `memcpy(dst, src, n)` (source bytes taken from the
memory as it was at the call; the claims only exercise it on
non-overlapping regions). -/
def memcpy (m : Mem) (dst src : Nat) : Nat → Mem
  | 0 => m
  | n + 1 => storeByte (memcpy m dst src n) (dst + n) (loadByte m (src + n))

/-- `mm_realloc(ptr, size)`: always `mm_malloc`s a new block, copies
`GET_SIZE(HDRP(ptr))` bytes (clamped to `size`), frees `ptr` and
returns the new pointer.  `none` models the `exit(1)` taken when the
inner `mm_malloc` fails. -/
def mm_realloc (s : AState) (ptr size : Nat) : Option (Nat × AState) :=
  let r := mm_malloc s size
  match r.1 with
  | none => none
  | some newp =>
    let s1 := r.2
    let copySize0 := sizeField (load32 s1.mem (HDRP ptr))
    let copySize := if size < copySize0 then size else copySize0
    let m1 := memcpy s1.mem newp ptr copySize
    some (newp, mm_free { s1 with mem := m1 } ptr)

/-- `mm_free` instrumented with the address of the one memory word the
function reads before its null check (`GET_SIZE(HDRP(bp))` on line 154
precedes `if(bp == NULL)` on line 155). -/
def mm_freeR (s : AState) (bp : Nat) : AState × List Nat :=
  let reads := [HDRP bp]
  if bp = 0 then (s, reads)
  else (mm_free s bp, reads)

/-- `mm_realloc` instrumented with the addresses of the old block
`ptr`fs bytes that the function itself reads: the header word at
`HDRP(ptr)` and the `copySize` payload bytes fed to `memcpy`. -/
def mm_reallocR (s : AState) (ptr size : Nat) : Option (Nat × AState × List Nat) :=
  let r := mm_malloc s size
  match r.1 with
  | none => none
  | some newp =>
    let s1 := r.2
    let copySize0 := sizeField (load32 s1.mem (HDRP ptr))
    let copySize := if size < copySize0 then size else copySize0
    let reads := HDRP ptr :: (List.range copySize).map (fun i => ptr + i)
    let m1 := memcpy s1.mem newp ptr copySize
    some (newp, mm_free { s1 with mem := m1 } ptr, reads)

/-- Outcomes of `mm_checkheap` / `checkblock`: `ok` is a silent return,
every other constructor is one of the `printf`+`exit(1)` diagnostics. -/
inductive CheckResult where
  | ok
  | notStarted
  | badPrologueHdr
  | badPrologueFtr
  | notInHeap
  | notAligned
  | hdrNeFtr
  | badEpilogue
  | countMismatch
  | noFuel
deriving DecidableEq

/-- `checkblock(bp)`: region bounds (`mem_heap_lo()`/`mem_heap_hi()`),
double-word alignment, and header = footer. -/
def checkblock (s : AState) (bp : Nat) : Option CheckResult :=
  if ¬(bp ≤ s.brk - 1 ∧ MBASE ≤ bp) then some .notInHeap
  else if ¬(bp + 7 - (bp + 7) % 8 = bp) then some .notAligned
  else if load32 s.mem (HDRP bp) ≠ load32 s.mem (FTRP s.mem bp) then some .hdrNeFtr
  else none

/-- The block-chain walk of `mm_checkheap`: counts free blocks and
checks every block until the zero-size epilogue header; returns the
final block pointer and the free-block count. -/
def heapWalk (s : AState) : Nat → Nat → Nat → Except CheckResult (Nat × Nat)
  | _, _, 0 => .error .noFuel
  | bp, cnt, fuel + 1 =>
    if sizeField (load32 s.mem (HDRP bp)) = 0 then .ok (bp, cnt)
    else
      let cnt1 := if allocField (load32 s.mem (HDRP bp)) = 0 then cnt + 1 else cnt
      match checkblock s bp with
      | some e => .error e
      | none => heapWalk s (NEXT_BLKP s.mem bp) cnt1 fuel

/-- The free-list walk of `mm_checkheap`: checks and counts the nodes. -/
def listWalk (s : AState) : Nat → Nat → Nat → Except CheckResult Nat
  | _, _, 0 => .error .noFuel
  | cp, cnt, fuel + 1 =>
    if cp = 0 then .ok cnt
    else
      match checkblock s cp with
      | some e => .error e
      | none => listWalk s (load64 s.mem cp) (cnt + 1) fuel

/-- `mm_checkheap`: note that the C code computes the prologue block
pointer `go` as `free_listp + DSIZE` (line 197), not from `heap_listp`. -/
def mm_checkheap (s : AState) (fuel : Nat) : CheckResult :=
  let go := s.free_listp + DSIZE
  if s.heap_listp ≠ MBASE then .notStarted
  else if sizeField (load32 s.mem (HDRP go)) ≠ DSIZE ∨
      allocField (load32 s.mem (HDRP go)) = 0 then .badPrologueHdr
  else if sizeField (load32 s.mem (FTRP s.mem go)) ≠ DSIZE ∨
      allocField (load32 s.mem (FTRP s.mem go)) = 0 then .badPrologueFtr
  else
    match checkblock s go with
    | some e => e
    | none =>
      match heapWalk s (NEXT_BLKP s.mem go) 0 fuel with
      | .error e => e
      | .ok (bp, heapCount) =>
        match listWalk s s.free_listp 0 fuel with
        | .error e => e
        | .ok listCount =>
          if sizeField (load32 s.mem (HDRP bp)) ≠ 0 ∨
              allocField (load32 s.mem (HDRP bp)) = 0 then .badEpilogue
          else if heapCount ≠ listCount then .countMismatch
          else .ok

/-- The program state before any call: zeroed memory and zeroed
globals; the region driver will hand out addresses from `MBASE` up. -/
def s0 : AState :=
  { mem := [], brk := MBASE, heap_listp := 0, free_listp := 0
    ff_size := 0, ff_count := 0 }

/-- The heap right after `mm_init()` succeeds on the pristine state. -/
def sInit : AState := mm_init s0

/-- Representation of the explicit free list as the list `L` of block
pointers: walking `GET_NEXT` from `hd` visits exactly `L`, every
node's `GET_PREV` points at its list predecessor (`pr` for the head),
and the terminating `GET_NEXT` is null. -/
def repFL (m : Mem) : Nat → Nat → List Nat → Bool
  | _, hd, [] => hd == 0
  | pr, hd, x :: xs =>
    hd == x && x != 0 && (load64 m (x + 8) == pr) && repFL m x (load64 m x) xs

/-- A proper segment of the free list: starting from `(pr, hd)` the
chain visits exactly `L` and then continues at `(pr2, hd2)`. -/
def repSeg (m : Mem) : Nat → Nat → List Nat → Nat → Nat → Bool
  | pr, hd, [], pr2, hd2 => pr == pr2 && hd == hd2
  | pr, hd, x :: xs, pr2, hd2 =>
    hd == x && x != 0 && (load64 m (x + 8) == pr) && repSeg m x (load64 m x) xs pr2 hd2

/-- Pairwise disjointness of the 16-byte link regions of the nodes. -/
def pairwiseSep : List Nat → Bool
  | [] => true
  | x :: xs => xs.all (fun y => x + 16 ≤ y || y + 16 ≤ x) && pairwiseSep xs

/-- Every node's 16-byte link region is disjoint from `[a, a + w)`. -/
def sepA (L : List Nat) (a w : Nat) : Bool :=
  L.all fun y => a + w ≤ y || y + 16 ≤ a

/-- Node sanity: each node is double-word aligned, nonzero, and
representable in a 64-bit pointer. -/
def nodesOK (L : List Nat) : Bool :=
  L.all fun y => y % 8 == 0 && y != 0 && decide (y < 2 ^ 64)

/-- Every node's 16-byte link region lies within `[lo, hi)`. -/
def inReg (L : List Nat) (lo hi : Nat) : Bool :=
  L.all fun y => lo ≤ y && y + 16 ≤ hi

/-- Scenario A, step 1: `X := allocate(100)` on the fresh heap. -/
def scA1 : Option Nat × AState := mm_malloc sInit 100

/-- Scenario A, step 2: `Y := allocate(200)`. -/
def scA2 : Option Nat × AState := mm_malloc scA1.2 200

/-- Scenario A, step 3: `release(X)`. -/
def scA3 : AState := mm_free scA2.2 (scA1.1.getD 0)

/-- Scenario A, step 4: `allocate(50)`. -/
def scA4 : Option Nat × AState := mm_malloc scA3 50

/-- One `allocate(16)` step (the returned pointer is dropped). -/
def mallocStep16 (s : AState) : AState := (mm_malloc s 16).2

/-- The heap after initialize() followed by 42 `allocate(16)` calls:
the `find_fit` statics now hold `size = 24`, `count = 41`. -/
def byp42 : AState := mallocStep16^[42] sInit

/-- `X := allocate(16)` on `byp42` (taken through the bypass). -/
def bypX : Option Nat × AState := mm_malloc byp42 16

/-- `release(X)` right after `X := allocate(16)`, with no other
allocation in between. -/
def bypFree : AState := mm_free bypX.2 (bypX.1.getD 0)

/-- The final `allocate(16)` (so `m = n = 16`) after the round trip. -/
def bypFinal : Option Nat × AState := mm_malloc bypFree 16

/-- Coalescer counterexample, step 1: `allocate(1)` — a 16-byte block. -/
def c2t1 : Option Nat × AState := mm_malloc sInit 1

/-- Coalescer counterexample, step 2: `allocate(100)` (so both
neighbors of the first block are allocated). -/
def c2t2 : Option Nat × AState := mm_malloc c2t1.2 100

/-- Coalescer counterexample, step 3: `release` of the 16-byte block —
coalesce case 1 inserts it into the free list, and the 8-byte
`SET_PREV(bp, NULL)` write lands on the block's own footer and the
next block's header. -/
def c2t3 : AState := mm_free c2t2.2 (c2t1.1.getD 0)

/-- Resize counterexample, step 1: `X := allocate(16)` — a 24-byte
block with a 16-byte payload. -/
def c3t1 : Option Nat × AState := mm_malloc sInit 16

/-- Resize counterexample, step 2: `resize(X, 20)` — the C code copies
`min(20, GET_SIZE(HDRP(X))) = min(20, 24) = 20` bytes, four more than
the 16-byte payload. -/
def c3t2 : Option (Nat × AState) := mm_realloc c3t1.2 (c3t1.1.getD 0) 20

/-- Adaptive-bypass counterexample, step 1: `allocate(16)` finds a fit
and records the fitting size 24 in the static `size`. -/
def c4t1 : Option Nat × AState := mm_malloc sInit 16

/-- Adaptive-bypass counterexample, step 2: a second `allocate(16)`
that also finds a fit — and still advances the miss counter. -/
def c4t2 : Option Nat × AState := mm_malloc c4t1.2 16

/-- Minimum-block counterexample, step 1: `allocate(3)` — clamped to a
16-byte block. -/
def c5t1 : Option Nat × AState := mm_malloc sInit 3

/-- Minimum-block counterexample, step 2: `allocate(64)`. -/
def c5t2 : Option Nat × AState := mm_malloc c5t1.2 64

/-- Minimum-block counterexample, step 3: freeing the 16-byte block —
its 8-byte payload cannot hold the two 8-byte links, so the link
writes destroy its footer and its neighbor's header. -/
def c5t3 : AState := mm_free c5t2.2 (c5t1.1.getD 0)

/-- A small hand-made heap for exercising `coalesce` on a freed block
both of whose neighbors are allocated: block `bp = 64` of size 24 with
free tags 24 at words 15 (header) and 20 (footer); its allocated
predecessor has tags `PACK 24 1 = 25` at words 9 and 14, its allocated
successor has header `PACK 16 1 = 17` at word 21; the free list is
empty. -/
def c2w : AState :=
  { mem := [(15, 24), (20, 24), (14, 25), (9, 25), (21, 17)], brk := 96,
    heap_listp := 8, free_listp := 0, ff_size := 0, ff_count := 0 }

set_option maxRecDepth 200000

set_option maxHeartbeats 2000000

/-- Reading after a word write: the written word if the indices match,
the old memory otherwise. -/
theorem wread_wwrite (m : Mem) (i j v : Nat) :
    wread (wwrite m i v) j = if i = j then v % 4294967296 else wread m j := by
  simp [wread, wwrite]

/-- A 32-bit load after a 32-bit store. -/
theorem load32_store32 (m : Mem) (a b v : Nat) :
    load32 (store32 m b v) a = if b / 4 = a / 4 then v % 4294967296 else load32 m a := by
  simp [load32, store32, wread_wwrite]

/-- A 32-bit load is unchanged by a 64-bit store to other words. -/
theorem load32_store64 (m : Mem) (a b v : Nat) (h1 : b / 4 ≠ a / 4)
    (h2 : b / 4 + 1 ≠ a / 4) :
    load32 (store64 m b v) a = load32 m a := by
  simp [load32, store64, wread_wwrite, h1, h2]

/-- A 64-bit load is unchanged by a 32-bit store to other words. -/
theorem load64_store32 (m : Mem) (a b v : Nat) (h1 : b / 4 ≠ a / 4)
    (h2 : b / 4 ≠ a / 4 + 1) :
    load64 (store32 m b v) a = load64 m a := by
  simp [load64, store32, wread_wwrite, h1, h2]

/-- A 64-bit load of a just-stored 64-bit pointer value. -/
theorem load64_store64_same (m : Mem) (a v : Nat) (hv : v < 2 ^ 64) :
    load64 (store64 m a v) a = v := by
  have h : a / 4 + 1 ≠ a / 4 := by omega
  have e1 : wread (store64 m a v) (a / 4) = v % 4294967296 % 4294967296 := by
    rw [store64, wread_wwrite, if_neg h, wread_wwrite, if_pos rfl]
  have e2 : wread (store64 m a v) (a / 4 + 1) = v / 4294967296 % 4294967296 := by
    rw [store64, wread_wwrite, if_pos rfl]
  rw [load64, e1, e2]
  omega

/-- A byte load is always below 256. -/
theorem loadByte_lt (m : Mem) (a : Nat) : loadByte m a < 256 :=
  Nat.mod_lt _ (by omega)

/-- A byte load of a just-stored byte. -/
theorem loadByte_storeByte_same (m : Mem) (a v : Nat) :
    loadByte (storeByte m a v) a = v % 256 := by
  simp only [loadByte, storeByte, wread_wwrite, if_pos rfl]
  have h4 : a % 4 = 0 ∨ a % 4 = 1 ∨ a % 4 = 2 ∨ a % 4 = 3 := by omega
  rcases h4 with h | h | h | h <;> rw [h] <;> norm_num <;> omega

/-- A byte load is unchanged by a byte store at any other byte address
(also within the same word: `storeByte`'s read-modify-write keeps the
other three byte lanes). -/
theorem loadByte_storeByte_other (m : Mem) (a b v : Nat) (hne : b ≠ a) :
    loadByte (storeByte m a v) b = loadByte m b := by
  by_cases hw : a / 4 = b / 4
  · have hab : a % 4 ≠ b % 4 := fun hmod => hne (by omega)
    simp only [loadByte, storeByte, wread_wwrite, if_pos hw, ← hw]
    have h4 : (a % 4 = 0 ∨ a % 4 = 1 ∨ a % 4 = 2 ∨ a % 4 = 3) ∧
        (b % 4 = 0 ∨ b % 4 = 1 ∨ b % 4 = 2 ∨ b % 4 = 3) := by omega
    obtain ⟨ha | ha | ha | ha, hb | hb | hb | hb⟩ := h4 <;>
      rw [ha, hb] <;> first
      | exact absurd (ha.trans hb.symm) hab
      | (norm_num; omega)
  · simp only [loadByte, storeByte, wread_wwrite, if_neg hw]

/-- Each of the `len` bytes `memcpy` lays down at `dst` equals the
corresponding source byte of the memory as it was at the call. -/
theorem memcpy_read_dst (m : Mem) (dst src : Nat) :
    ∀ len i, i < len →
      loadByte (memcpy m dst src len) (dst + i) = loadByte m (src + i) := by
  intro len
  induction len with
  | zero => omega
  | succ l ih =>
    intro i hi
    by_cases hil : i = l
    · subst hil
      rw [memcpy, loadByte_storeByte_same, Nat.mod_eq_of_lt (loadByte_lt _ _)]
    · rw [memcpy, loadByte_storeByte_other _ _ _ _ (by omega)]
      exact ih i (by omega)

/-- A 64-bit load is unchanged by a 64-bit store to other words. -/
theorem load64_store64_ne (m : Mem) (a b v : Nat) (h1 : b / 4 ≠ a / 4)
    (h2 : b / 4 ≠ a / 4 + 1) (h3 : b / 4 + 1 ≠ a / 4) (h4 : b / 4 + 1 ≠ a / 4 + 1) :
    load64 (store64 m b v) a = load64 m a := by
  simp [load64, store64, wread_wwrite, h1, h2, h3, h4]

/-- `edit_free_list` only touches `mem` and `free_listp`. -/
theorem edit_free_list_brk (s : AState) (bp i : Nat) :
    (edit_free_list s bp i).brk = s.brk := by
  simp only [edit_free_list]
  split_ifs <;> simp

/-- `edit_free_list` preserves `heap_listp`. -/
theorem edit_free_list_hlp (s : AState) (bp i : Nat) :
    (edit_free_list s bp i).heap_listp = s.heap_listp := by
  simp only [edit_free_list]
  split_ifs <;> simp

/-- `edit_free_list` preserves the `find_fit` static `size`. -/
theorem edit_free_list_ffs (s : AState) (bp i : Nat) :
    (edit_free_list s bp i).ff_size = s.ff_size := by
  simp only [edit_free_list]
  split_ifs <;> simp

/-- `edit_free_list` preserves the `find_fit` static `count`. -/
theorem edit_free_list_ffc (s : AState) (bp i : Nat) :
    (edit_free_list s bp i).ff_count = s.ff_count := by
  simp only [edit_free_list]
  split_ifs <;> simp

/-- `coalesce` never moves the region end. -/
theorem coalesce_brk (s : AState) (bp : Nat) : (coalesce s bp).1.brk = s.brk := by
  by_cases h1 : allocField (load32 s.mem (FTRP s.mem (PREV_BLKP s.mem bp))) ≠ 0 ∨
      PREV_BLKP s.mem bp = bp <;>
    by_cases h2 : allocField (load32 s.mem (HDRP (NEXT_BLKP s.mem bp))) ≠ 0 <;>
    simp [coalesce, h1, h2, edit_free_list_brk]

/-- `coalesce` preserves `heap_listp`. -/
theorem coalesce_hlp (s : AState) (bp : Nat) :
    (coalesce s bp).1.heap_listp = s.heap_listp := by
  by_cases h1 : allocField (load32 s.mem (FTRP s.mem (PREV_BLKP s.mem bp))) ≠ 0 ∨
      PREV_BLKP s.mem bp = bp <;>
    by_cases h2 : allocField (load32 s.mem (HDRP (NEXT_BLKP s.mem bp))) ≠ 0 <;>
    simp [coalesce, h1, h2, edit_free_list_hlp]

/-- `coalesce` preserves the `find_fit` static `size`. -/
theorem coalesce_ffs (s : AState) (bp : Nat) :
    (coalesce s bp).1.ff_size = s.ff_size := by
  by_cases h1 : allocField (load32 s.mem (FTRP s.mem (PREV_BLKP s.mem bp))) ≠ 0 ∨
      PREV_BLKP s.mem bp = bp <;>
    by_cases h2 : allocField (load32 s.mem (HDRP (NEXT_BLKP s.mem bp))) ≠ 0 <;>
    simp [coalesce, h1, h2, edit_free_list_ffs]

/-- `coalesce` preserves the `find_fit` static `count`. -/
theorem coalesce_ffc (s : AState) (bp : Nat) :
    (coalesce s bp).1.ff_count = s.ff_count := by
  by_cases h1 : allocField (load32 s.mem (FTRP s.mem (PREV_BLKP s.mem bp))) ≠ 0 ∨
      PREV_BLKP s.mem bp = bp <;>
    by_cases h2 : allocField (load32 s.mem (HDRP (NEXT_BLKP s.mem bp))) ≠ 0 <;>
    simp [coalesce, h1, h2, edit_free_list_ffc]

/-- `extend_heap` grows the region by exactly `extendSize words`. -/
theorem extend_heap_brk (s : AState) (words : Nat) :
    (extend_heap s words).1.brk = s.brk + extendSize words := by
  unfold extend_heap
  simp [coalesce_brk]

/-- `extend_heap` preserves `heap_listp`. -/
theorem extend_heap_hlp (s : AState) (words : Nat) :
    (extend_heap s words).1.heap_listp = s.heap_listp := by
  unfold extend_heap
  simp [coalesce_hlp]

/-- `extend_heap` preserves the `find_fit` static `size`. -/
theorem extend_heap_ffs (s : AState) (words : Nat) :
    (extend_heap s words).1.ff_size = s.ff_size := by
  unfold extend_heap
  simp [coalesce_ffs]

/-- `extend_heap` preserves the `find_fit` static `count`. -/
theorem extend_heap_ffc (s : AState) (words : Nat) :
    (extend_heap s words).1.ff_count = s.ff_count := by
  unfold extend_heap
  simp [coalesce_ffc]

/-- C4 (amended): `find_fit`'s adaptive policy, on every state, request
and fuel.  (i) The region grows (by `extendSize (MAX(asize,16)/4)`,
skipping the scan) exactly when the recorded size equals `asize` and
the counter already exceeds 40, and then the counter is left
unchanged; (ii) otherwise the counter is incremented when `asize`
equals the recorded size — whether or not the scan then finds a fit —
and reset to 0 when it differs; (iii) the recorded size is updated to
`asize` exactly when the scan runs and finds a fit; (iv) the result is
the newly extended block on the bypass path and exactly the first-fit
scan's answer otherwise. -/
theorem c4_find_fit_policy (s : AState) (asize fuel : Nat) :
    ((find_fit s asize fuel).1.brk =
      if s.ff_size = asize ∧ 40 < s.ff_count then
        s.brk + extendSize (max asize (4 * WSIZE) / 4)
      else s.brk) ∧
    ((find_fit s asize fuel).1.ff_count =
      if s.ff_size = asize ∧ 40 < s.ff_count then s.ff_count
      else if s.ff_size = asize then s.ff_count + 1 else 0) ∧
    ((find_fit s asize fuel).1.ff_size =
      if ¬(s.ff_size = asize ∧ 40 < s.ff_count) ∧
          (ffScan s.mem asize s.free_listp fuel).isSome = true then asize
      else s.ff_size) ∧
    ((find_fit s asize fuel).2 =
      if s.ff_size = asize ∧ 40 < s.ff_count then
        some (extend_heap s (max asize (4 * WSIZE) / 4)).2
      else ffScan s.mem asize s.free_listp fuel) := by
  unfold find_fit
  by_cases hb : s.ff_size = asize ∧ 40 < s.ff_count
  · simp [hb, extend_heap_brk, extend_heap_ffc, extend_heap_ffs]
  · by_cases hsz : s.ff_size = asize
    · have hc : ¬ 40 < s.ff_count := fun hgt => hb ⟨hsz, hgt⟩
      rcases hscan : ffScan s.mem asize s.free_listp fuel with _ | fp <;>
        simp [hb, hsz, hc, hscan]
    · rcases hscan : ffScan s.mem asize s.free_listp fuel with _ | fp <;>
        simp [hb, hsz, hscan]

set_option maxHeartbeats 8000000 in
/-- C1 (counterexample): on the heap produced by initialize(), 42
`allocate(16)` calls, then `X := allocate(16)` and `release(X)` with no
other intervening allocations, the subsequent `allocate(16)` (so
`m = n = 16`) succeeds but grows the region by 24 bytes — the
adaptive bypass (`count = 41 > 40` for size 24) extends the heap
instead of reusing X's freed space, refuting the round-trip claim as
stated. -/
theorem c1_counterexample :
    bypFinal.1.isSome = true ∧ bypFinal.2.brk = bypFree.brk + 24 := by decide

/-- C1 (amended, Scenario A): `initialize(); X := allocate(100);
Y := allocate(200); release(X); allocate(50)` — the final call returns
exactly X's address (24) and performs no region growth. -/
theorem c1_scenarioA :
    scA1.1 = some 24 ∧ scA2.1 = some 136 ∧ scA4.1 = some 24 ∧
    scA4.2.brk = scA3.brk := by decide

/-- C2 (counterexample): after `allocate(1)`, `allocate(100)` and a
release of the first (16-byte) block, coalesce case 1 has inserted the
freed block at the head of the free list, but the insertion's
`SET_PREV` write zeroed the block's own footer and the next block's
header: the head of the free list has header `PACK 16 0` yet footer 0,
and the following allocated block's header went from `PACK 112 1` to 0
— no well-formed consolidated free block covers the freed footprint. -/
theorem c2_counterexample :
    c2t3.free_listp = 24 ∧ load32 c2t3.mem (HDRP 24) = PACK 16 0 ∧
    load32 c2t3.mem (24 + 16 - 8) = 0 ∧
    load32 c2t2.2.mem (HDRP 40) = PACK 112 1 ∧
    load32 c2t3.mem (HDRP 40) = 0 := by decide

/-- C3 (counterexample): `X := allocate(16)` gives the 24-byte block at
24 whose payload capacity is 16 bytes; `resize(X, 20)` must, per the
claim, copy `min(20, 16) = 16` bytes, but the code copies
`min(20, GET_SIZE(HDRP(X))) = 20` bytes: byte 16 of the new block (at
48 + 16) was 0 before the call and holds 25 — the first byte of X's
footer `PACK 24 1` — afterwards. -/
theorem c3_counterexample :
    c3t1.1 = some 24 ∧ c3t2.isSome = true ∧
    (c3t2.getD (0, s0)).1 = 48 ∧
    loadByte c3t1.2.mem (48 + 16) = 0 ∧
    loadByte (c3t2.getD (0, s0)).2.mem (48 + 16) = 25 ∧
    loadByte c3t1.2.mem (24 + 16) = 25 ∧
    load32 c3t1.2.mem (HDRP 24) = PACK 24 1 := by decide

/-- C4 (counterexample): the first `allocate(16)` finds a fit (leaving
`count = 0`, `size = 24`); the second `allocate(16)` also finds a fit,
yet the consecutive-miss counter advances from 0 to 1 — a request that
finds a fit does advance the counter, contrary to the claim. -/
theorem c4_counterexample :
    c4t1.1.isSome = true ∧ c4t1.2.ff_count = 0 ∧ c4t1.2.ff_size = 24 ∧
    c4t2.1.isSome = true ∧ c4t2.2.ff_count = 1 := by decide

/-- C5: for requests at or below one alignment unit the adjusted block
size is the code's minimum block size `DSIZE + OVERHEAD = 16`, but
that minimum leaves only `16 - OVERHEAD = 8` payload bytes — not the
16 needed for the two 8-byte free-list links.  Consequence, evaluated
on the code: after `allocate(3)`, `allocate(64)` and a release of the
16-byte block, the link writes destroyed the freed block's footer
(now 0, header still `PACK 16 0`) and the neighboring allocated
block's header (`PACK 72 1` before, 0 after). -/
theorem c5_min_block_too_small :
    adjSize 1 = DSIZE + OVERHEAD ∧ adjSize 1 - OVERHEAD < 16 ∧
    c5t3.free_listp = 24 ∧ load32 c5t3.mem (HDRP 24) = PACK 16 0 ∧
    load32 c5t3.mem (24 + 16 - 8) = 0 ∧
    load32 c5t2.2.mem (HDRP 40) = PACK 72 1 ∧
    load32 c5t3.mem (HDRP 40) = 0 := by decide

/-- C6 (counterexample): on the pristine (never-initialized) state,
`allocate(0)` does return a null result, but lazy initialization first
grows the region from `MBASE` to `MBASE + 16 + CHUNKSIZE`. -/
theorem c6_counterexample :
    (mm_malloc s0 0).1 = none ∧ s0.brk = MBASE ∧
    (mm_malloc s0 0).2.brk = MBASE + 16 + CHUNKSIZE := by decide

/-- C6 (amended): on every initialized heap state (`heap_listp ≠ 0`),
`allocate(0)` returns a null result and leaves the entire allocator
state — memory, region end, free list and `find_fit` statics —
unchanged. -/
theorem c6_alloc_zero_noop (s : AState) (h : s.heap_listp ≠ 0) :
    mm_malloc s 0 = (none, s) := by
  simp [mm_malloc, h]

/-- C6 witness: the amended theorem applied to the freshly initialized
heap. -/
theorem c6_alloc_zero_noop_witness :
    sInit.heap_listp ≠ 0 ∧ mm_malloc sInit 0 = (none, sInit) :=
  ⟨by decide, c6_alloc_zero_noop sInit (by decide)⟩

/-- C7: `release(null)` does leave the state unchanged, but it is not
free of memory reads: on every state, `mm_free(0)` reads the header
word at `HDRP(0)` — an address below the region base `MBASE`, i.e.
outside the managed region (in the C source this is the 4-byte read
`GET_SIZE(HDRP(bp))` on line 154, executed before the null check on
line 155). -/
theorem c7_free_null_reads_header (s : AState) :
    mm_freeR s 0 = (s, [HDRP 0]) ∧ HDRP 0 < MBASE := ⟨rfl, by decide⟩

/-- Any `mm_malloc` with a nonzero request returns a block pointer
(region growth never fails in the model, matching the claim's
assumption that memory is available). -/
theorem mm_malloc_pos_some (s : AState) (n : Nat) (h : n ≠ 0) :
    ∃ bp s1, mm_malloc s n = (some bp, s1) := by
  unfold mm_malloc
  simp only [h, if_false]
  rcases (find_fit (if s.heap_listp = 0 then mm_init s else s) (adjSize n) FUEL).2 with _ | bp
  · exact ⟨_, _, rfl⟩
  · exact ⟨_, _, rfl⟩

/-- C3 (amended): for every state, block reference `ptr` and nonzero
request `n`, `resize(ptr, n)` performs exactly the three advertised
steps — a fresh `allocate(n)` returning `newp`, a byte copy from `ptr`
to `newp`, and a `release(ptr)` — but the number of bytes copied is
`min(n, GET_SIZE(HDRP(ptr)))`, the clamp being against the old block's
TOTAL size (payload plus 8 bytes of boundary tags), not the old
payload size; each copied byte of the new block equals the
corresponding old byte. -/
theorem c3_realloc_steps (s : AState) (ptr n : Nat) (h : n ≠ 0) :
    ∃ newp s1, mm_malloc s n = (some newp, s1) ∧
      mm_realloc s ptr n =
        some (newp, mm_free
          { s1 with
              mem := memcpy s1.mem newp ptr (min n (sizeField (load32 s1.mem (HDRP ptr)))) }
          ptr) ∧
      ∀ i, i < min n (sizeField (load32 s1.mem (HDRP ptr))) →
        loadByte (memcpy s1.mem newp ptr
            (min n (sizeField (load32 s1.mem (HDRP ptr))))) (newp + i) =
          loadByte s1.mem (ptr + i) := by
  obtain ⟨newp, s1, hm⟩ := mm_malloc_pos_some s n h
  refine ⟨newp, s1, hm, ?_, fun i hi => memcpy_read_dst _ _ _ _ i hi⟩
  have hmin : (if n < sizeField (load32 s1.mem (HDRP ptr)) then n
      else sizeField (load32 s1.mem (HDRP ptr))) =
      min n (sizeField (load32 s1.mem (HDRP ptr))) := by
    rw [Nat.min_def]
    split_ifs <;> omega
  simp only [mm_realloc, hm]
  rw [hmin]

/-- C3 witness: the amended theorem applied to the fresh state with
`ptr = 24` and `n = 20`. -/
theorem c3_realloc_steps_witness :
    (20 : Nat) ≠ 0 ∧
    ∃ newp s1, mm_malloc s0 20 = (some newp, s1) ∧
      mm_realloc s0 24 20 =
        some (newp, mm_free
          { s1 with
              mem := memcpy s1.mem newp 24 (min 20 (sizeField (load32 s1.mem (HDRP 24)))) }
          24) ∧
      ∀ i, i < min 20 (sizeField (load32 s1.mem (HDRP 24))) →
        loadByte (memcpy s1.mem newp 24
            (min 20 (sizeField (load32 s1.mem (HDRP 24))))) (newp + i) =
          loadByte s1.mem (24 + i) :=
  ⟨by decide, c3_realloc_steps s0 24 20 (by decide)⟩

/-- C8: `resize(null, n)` is not a fresh allocate: for every state and
every `n > 0`, the instrumented `mm_realloc` records a read of the old
block's header at `HDRP(0)`, an address below the region base `MBASE`
(in C this is `GET_SIZE(HDRP(ptr))` with `ptr = NULL`, i.e. a read at
address -4, followed by `memcpy` from the null pointer — `mm_realloc`
has no null-pointer handling at all). -/
theorem c8_realloc_null_reads_old (s : AState) (n : Nat) (h : n ≠ 0) :
    (mm_reallocR s 0 n).isSome = true ∧
    ∀ r, mm_reallocR s 0 n = some r → HDRP 0 ∈ r.2.2 ∧ HDRP 0 < MBASE := by
  obtain ⟨bp, s1, hm⟩ := mm_malloc_pos_some s n h
  unfold mm_reallocR
  rw [hm]
  refine ⟨rfl, ?_⟩
  intro r hr
  obtain rfl : r = (bp, _, _) := (Option.some_inj.mp hr).symm
  exact ⟨List.mem_cons_self _ _, by decide⟩

/-- C8 witness: the theorem applied to the pristine state with
`n = 10`. -/
theorem c8_realloc_null_reads_old_witness :
    (10 : Nat) ≠ 0 ∧ ((mm_reallocR s0 0 10).isSome = true ∧
      ∀ r, mm_reallocR s0 0 10 = some r → HDRP 0 ∈ r.2.2 ∧ HDRP 0 < MBASE) :=
  ⟨by decide, c8_realloc_null_reads_old s0 10 (by decide)⟩

/-- C9: on the well-formed heap produced by a correct `initialize()`
(whose true prologue header and footer at `heap_listp + WSIZE` and
`heap_listp + DSIZE` are intact, `PACK OVERHEAD 1`), the consistency
checker already reports a violation: it computes the prologue pointer
`go` as `free_listp + DSIZE` instead of `heap_listp + DSIZE`, so the
prologue check reads the zeroed link area inside the first free block
and fails with the bad-prologue-header diagnostic. -/
theorem c9_checker_rejects_fresh_heap :
    sInit.heap_listp = MBASE ∧
    load32 sInit.mem (sInit.heap_listp + WSIZE) = PACK OVERHEAD 1 ∧
    load32 sInit.mem (sInit.heap_listp + DSIZE) = PACK OVERHEAD 1 ∧
    mm_checkheap sInit FUEL = CheckResult.badPrologueHdr := by decide

/-- 32-bit load after a 32-bit store to a byte-disjoint region. -/
theorem load32_store32_disj (m : Mem) (a b v : Nat) (ha : a % 4 = 0) (hb : b % 4 = 0)
    (h : a + 4 ≤ b ∨ b + 4 ≤ a) :
    load32 (store32 m b v) a = load32 m a := by
  rw [load32_store32, if_neg]
  omega

/-- 32-bit load after a 64-bit store to a byte-disjoint region. -/
theorem load32_store64_disj (m : Mem) (a b v : Nat) (ha : a % 4 = 0) (hb : b % 4 = 0)
    (h : a + 4 ≤ b ∨ b + 8 ≤ a) :
    load32 (store64 m b v) a = load32 m a := by
  apply load32_store64 <;> omega

/-- 64-bit load after a 32-bit store to a byte-disjoint region. -/
theorem load64_store32_disj (m : Mem) (a b v : Nat) (ha : a % 4 = 0) (hb : b % 4 = 0)
    (h : a + 8 ≤ b ∨ b + 4 ≤ a) :
    load64 (store32 m b v) a = load64 m a := by
  apply load64_store32 <;> omega

/-- 64-bit load after a 64-bit store to a byte-disjoint region. -/
theorem load64_store64_disj (m : Mem) (a b v : Nat) (ha : a % 4 = 0) (hb : b % 4 = 0)
    (h : a + 8 ≤ b ∨ b + 8 ≤ a) :
    load64 (store64 m b v) a = load64 m a := by
  apply load64_store64_ne <;> omega

/-- Unfolding `repFL` on the empty list. -/
theorem repFL_nil_iff (m : Mem) (pr hd : Nat) : repFL m pr hd [] = true ↔ hd = 0 := by
  simp [repFL]

/-- Unfolding `repFL` on a cons. -/
theorem repFL_cons_iff (m : Mem) (pr hd x : Nat) (xs : List Nat) :
    repFL m pr hd (x :: xs) = true ↔
      hd = x ∧ x ≠ 0 ∧ load64 m (x + 8) = pr ∧ repFL m x (load64 m x) xs = true := by
  simp [repFL, and_assoc]

/-- Unfolding `repSeg` on the empty segment. -/
theorem repSeg_nil_iff (m : Mem) (pr hd pr2 hd2 : Nat) :
    repSeg m pr hd [] pr2 hd2 = true ↔ pr = pr2 ∧ hd = hd2 := by
  simp [repSeg]

/-- Unfolding `repSeg` on a cons. -/
theorem repSeg_cons_iff (m : Mem) (pr hd x pr2 hd2 : Nat) (xs : List Nat) :
    repSeg m pr hd (x :: xs) pr2 hd2 = true ↔
      hd = x ∧ x ≠ 0 ∧ load64 m (x + 8) = pr ∧
        repSeg m x (load64 m x) xs pr2 hd2 = true := by
  simp [repSeg, and_assoc]

/-- Unfolding `nodesOK` on a cons. -/
theorem nodesOK_cons_iff (x : Nat) (xs : List Nat) :
    nodesOK (x :: xs) = true ↔
      (x % 8 = 0 ∧ x ≠ 0 ∧ x < 2 ^ 64) ∧ nodesOK xs = true := by
  simp [nodesOK, and_assoc]

/-- Unfolding `sepA` on a cons. -/
theorem sepA_cons_iff (x a w : Nat) (xs : List Nat) :
    sepA (x :: xs) a w = true ↔ (a + w ≤ x ∨ x + 16 ≤ a) ∧ sepA xs a w = true := by
  simp [sepA]

/-- Unfolding `pairwiseSep` on a cons. -/
theorem pairwiseSep_cons_iff (x : Nat) (xs : List Nat) :
    pairwiseSep (x :: xs) = true ↔
      (∀ y ∈ xs, x + 16 ≤ y ∨ y + 16 ≤ x) ∧ pairwiseSep xs = true := by
  simp [pairwiseSep]

/-- `nodesOK` facts for a member. -/
theorem nodesOK_mem (L : List Nat) (y : Nat) (hy : y ∈ L) (h : nodesOK L = true) :
    y % 8 = 0 ∧ y ≠ 0 ∧ y < 2 ^ 64 := by
  simp only [nodesOK, List.all_eq_true] at h
  have := h y hy
  simpa [and_assoc] using this

/-- `sepA` fact for a member. -/
theorem sepA_mem (L : List Nat) (y a w : Nat) (hy : y ∈ L) (h : sepA L a w = true) :
    a + w ≤ y ∨ y + 16 ≤ a := by
  simp only [sepA, List.all_eq_true] at h
  simpa using h y hy

/-- `nodesOK` over an append. -/
theorem nodesOK_append (A B : List Nat) :
    nodesOK (A ++ B) = true ↔ nodesOK A = true ∧ nodesOK B = true := by
  simp [nodesOK]

/-- `sepA` over an append. -/
theorem sepA_append (A B : List Nat) (a w : Nat) :
    sepA (A ++ B) a w = true ↔ sepA A a w = true ∧ sepA B a w = true := by
  simp [sepA]

/-- `pairwiseSep` over an append. -/
theorem pairwiseSep_append (A B : List Nat) :
    pairwiseSep (A ++ B) = true ↔
      pairwiseSep A = true ∧ pairwiseSep B = true ∧
        ∀ x ∈ A, ∀ y ∈ B, x + 16 ≤ y ∨ y + 16 ≤ x := by
  induction A with
  | nil => simp [pairwiseSep]
  | cons a A ih =>
    simp only [List.cons_append, pairwiseSep_cons_iff, ih]
    constructor
    · rintro ⟨h1, h2, h3, h4⟩
      refine ⟨⟨fun y hy => h1 y (List.mem_append_left _ hy), h2⟩, h3, ?_⟩
      intro x hx y hy
      rcases List.mem_cons.mp hx with rfl | hx
      · exact h1 y (List.mem_append_right _ hy)
      · exact h4 x hx y hy
    · rintro ⟨⟨h1, h2⟩, h3, h4⟩
      refine ⟨?_, h2, h3, fun x hx y hy => h4 x (List.mem_cons_of_mem _ hx) y hy⟩
      intro y hy
      rcases List.mem_append.mp hy with hy | hy
      · exact h1 y hy
      · exact h4 a (List.mem_cons_self _ _) y hy

/-- `repFL` is preserved by a 32-bit store that is disjoint from every
node's link region. -/
theorem repFL_frame32 (L : List Nat) : ∀ (m : Mem) (pr hd a v : Nat),
    a % 4 = 0 → nodesOK L = true → sepA L a 4 = true →
    repFL m pr hd L = true → repFL (store32 m a v) pr hd L = true := by
  induction L with
  | nil =>
    intro m pr hd a v _ _ _ h
    simpa [repFL_nil_iff] using h
  | cons x xs ih =>
    intro m pr hd a v ha hok hsep hrep
    rw [repFL_cons_iff] at hrep
    obtain ⟨h1, h2, h3, h4⟩ := hrep
    obtain ⟨⟨hx8, hx0, hx64⟩, hok2⟩ := (nodesOK_cons_iff x xs).mp hok
    obtain ⟨hs1, hs2⟩ := (sepA_cons_iff x a 4 xs).mp hsep
    rw [repFL_cons_iff]
    have e1 : load64 (store32 m a v) (x + 8) = load64 m (x + 8) :=
      load64_store32_disj _ _ _ _ (by omega) ha (by omega)
    have e2 : load64 (store32 m a v) x = load64 m x :=
      load64_store32_disj _ _ _ _ (by omega) ha (by omega)
    exact ⟨h1, h2, e1.trans h3, e2 ▸ ih m x (load64 m x) a v ha hok2 hs2 h4⟩

/-- `repFL` is preserved by a 64-bit store that is disjoint from every
node's link region. -/
theorem repFL_frame64 (L : List Nat) : ∀ (m : Mem) (pr hd a v : Nat),
    a % 4 = 0 → nodesOK L = true → sepA L a 8 = true →
    repFL m pr hd L = true → repFL (store64 m a v) pr hd L = true := by
  induction L with
  | nil =>
    intro m pr hd a v _ _ _ h
    simpa [repFL_nil_iff] using h
  | cons x xs ih =>
    intro m pr hd a v ha hok hsep hrep
    rw [repFL_cons_iff] at hrep
    obtain ⟨h1, h2, h3, h4⟩ := hrep
    obtain ⟨⟨hx8, hx0, hx64⟩, hok2⟩ := (nodesOK_cons_iff x xs).mp hok
    obtain ⟨hs1, hs2⟩ := (sepA_cons_iff x a 8 xs).mp hsep
    rw [repFL_cons_iff]
    have e1 : load64 (store64 m a v) (x + 8) = load64 m (x + 8) :=
      load64_store64_disj _ _ _ _ (by omega) ha (by omega)
    have e2 : load64 (store64 m a v) x = load64 m x :=
      load64_store64_disj _ _ _ _ (by omega) ha (by omega)
    exact ⟨h1, h2, e1.trans h3, e2 ▸ ih m x (load64 m x) a v ha hok2 hs2 h4⟩

/-- `repSeg` is preserved by a 64-bit store that is disjoint from every
segment node's link region. -/
theorem repSeg_frame64 (X : List Nat) : ∀ (m : Mem) (pr hd pr2 hd2 a v : Nat),
    a % 4 = 0 → nodesOK X = true → sepA X a 8 = true →
    repSeg m pr hd X pr2 hd2 = true → repSeg (store64 m a v) pr hd X pr2 hd2 = true := by
  induction X with
  | nil =>
    intro m pr hd pr2 hd2 a v _ _ _ h
    simpa [repSeg_nil_iff] using (repSeg_nil_iff m pr hd pr2 hd2).mp h
  | cons x xs ih =>
    intro m pr hd pr2 hd2 a v ha hok hsep hseg
    rw [repSeg_cons_iff] at hseg
    obtain ⟨h1, h2, h3, h4⟩ := hseg
    obtain ⟨⟨hx8, hx0, hx64⟩, hok2⟩ := (nodesOK_cons_iff x xs).mp hok
    obtain ⟨hs1, hs2⟩ := (sepA_cons_iff x a 8 xs).mp hsep
    rw [repSeg_cons_iff]
    have e1 : load64 (store64 m a v) (x + 8) = load64 m (x + 8) :=
      load64_store64_disj _ _ _ _ (by omega) ha (by omega)
    have e2 : load64 (store64 m a v) x = load64 m x :=
      load64_store64_disj _ _ _ _ (by omega) ha (by omega)
    exact ⟨h1, h2, e1.trans h3, e2 ▸ ih m x (load64 m x) pr2 hd2 a v ha hok2 hs2 h4⟩

/-- Splitting a represented list across an append. -/
theorem repFL_append_iff (X : List Nat) : ∀ (m : Mem) (pr hd : Nat) (Y : List Nat),
    repFL m pr hd (X ++ Y) = true ↔
      ∃ pr2 hd2, repSeg m pr hd X pr2 hd2 = true ∧ repFL m pr2 hd2 Y = true := by
  induction X with
  | nil =>
    intro m pr hd Y
    constructor
    · intro h
      exact ⟨pr, hd, (repSeg_nil_iff m pr hd pr hd).mpr ⟨rfl, rfl⟩, h⟩
    · rintro ⟨pr2, hd2, hseg, hrep⟩
      obtain ⟨h1, h2⟩ := (repSeg_nil_iff m pr hd pr2 hd2).mp hseg
      rw [List.nil_append, h1, h2]
      exact hrep
  | cons x xs ih =>
    intro m pr hd Y
    simp only [List.cons_append, repFL_cons_iff, repSeg_cons_iff]
    constructor
    · rintro ⟨h1, h2, h3, h4⟩
      obtain ⟨pr2, hd2, hseg, hrep⟩ := (ih m x (load64 m x) Y).mp h4
      exact ⟨pr2, hd2, ⟨h1, h2, h3, hseg⟩, hrep⟩
    · rintro ⟨pr2, hd2, ⟨h1, h2, h3, hseg⟩, hrep⟩
      exact ⟨h1, h2, h3, (ih m x (load64 m x) Y).mpr ⟨pr2, hd2, hseg, hrep⟩⟩

/-- The continuation predecessor of a nonempty segment is its last node. -/
theorem repSeg_last_mem (X : List Nat) : ∀ (m : Mem) (pr hd pr2 hd2 : Nat),
    repSeg m pr hd X pr2 hd2 = true → X ≠ [] → pr2 ∈ X := by
  induction X with
  | nil =>
    intro _ _ _ _ _ _ h
    exact absurd rfl h
  | cons x xs ih =>
    intro m pr hd pr2 hd2 hseg _
    rw [repSeg_cons_iff] at hseg
    obtain ⟨h1, h2, h3, h4⟩ := hseg
    rcases xs with _ | ⟨y, ys⟩
    · obtain ⟨h5, h6⟩ := (repSeg_nil_iff m x (load64 m x) pr2 hd2).mp h4
      rw [← h5]
      exact List.mem_cons_self _ _
    · exact List.mem_cons_of_mem _ (ih m x (load64 m x) pr2 hd2 h4 (by simp))

/-- Updating the next-pointer stored in the last node of a segment. -/
theorem repSeg_set_next (X : List Nat) : ∀ (m : Mem) (pr hd pr2 hd2 v : Nat),
    repSeg m pr hd X pr2 hd2 = true → X ≠ [] →
    nodesOK X = true → pairwiseSep X = true → v < 2 ^ 64 →
    repSeg (store64 m pr2 v) pr hd X pr2 v = true := by
  induction X with
  | nil =>
    intro _ _ _ _ _ _ _ h
    exact absurd rfl h
  | cons x xs ih =>
    intro m pr hd pr2 hd2 v hseg _ hok hps hv
    rw [repSeg_cons_iff] at hseg
    obtain ⟨h1, h2, h3, h4⟩ := hseg
    obtain ⟨⟨hx8, hx0, hx64⟩, hok2⟩ := (nodesOK_cons_iff x xs).mp hok
    obtain ⟨hps1, hps2⟩ := (pairwiseSep_cons_iff x xs).mp hps
    rw [repSeg_cons_iff]
    rcases xs with _ | ⟨y, ys⟩
    · obtain ⟨h5, h6⟩ := (repSeg_nil_iff m x (load64 m x) pr2 hd2).mp h4
      subst h5
      refine ⟨h1, h2, ?_, ?_⟩
      · rw [load64_store64_disj _ _ _ _ (by omega) (by omega) (by omega)]
        exact h3
      · rw [repSeg_nil_iff]
        exact ⟨rfl, load64_store64_same m x v hv⟩
    · have hmem : pr2 ∈ y :: ys := repSeg_last_mem _ m x (load64 m x) pr2 hd2 h4 (by simp)
      have hp8 : pr2 % 8 = 0 := (nodesOK_mem _ _ hmem hok2).1
      have hdisj : x + 16 ≤ pr2 ∨ pr2 + 16 ≤ x := hps1 pr2 hmem
      refine ⟨h1, h2, ?_, ?_⟩
      · rw [load64_store64_disj _ _ _ _ (by omega) (by omega) (by omega)]
        exact h3
      · have e2 : load64 (store64 m pr2 v) x = load64 m x :=
          load64_store64_disj _ _ _ _ (by omega) (by omega) (by omega)
        rw [e2]
        exact ih m x (load64 m x) pr2 hd2 v h4 (by simp) hok2 hps2 hv

/-- Building `sepA` from a pointwise bound. -/
theorem sepA_of_forall (L : List Nat) (a w : Nat)
    (h : ∀ y ∈ L, a + w ≤ y ∨ y + 16 ≤ a) : sepA L a w = true := by
  simp only [sepA, List.all_eq_true]
  intro y hy
  have := h y hy
  simpa using this

/-- Effect of `edit_free_list(bp, 1)` (insertion): `bp` becomes the
head of the represented list, and memory outside the link regions of
`bp` and the old head is untouched. -/
theorem edit_free_list_insert (L : List Nat) (s : AState) (bp : Nat)
    (hrep : repFL s.mem 0 s.free_listp L = true)
    (hok : nodesOK L = true)
    (hps : pairwiseSep L = true)
    (hbp8 : bp % 8 = 0) (hbp0 : bp ≠ 0) (hbp64 : bp < 2 ^ 64)
    (hsep : sepA L bp 16 = true) :
    (edit_free_list s bp 1).free_listp = bp ∧
    repFL (edit_free_list s bp 1).mem 0 bp (bp :: L) = true ∧
    (∀ a, a % 4 = 0 → sepA L a 4 = true → (a + 4 ≤ bp ∨ bp + 16 ≤ a) →
      load32 (edit_free_list s bp 1).mem a = load32 s.mem a) := by
  rcases L with _ | ⟨f, L2⟩
  · have hflp : s.free_listp = 0 := (repFL_nil_iff s.mem 0 s.free_listp).mp hrep
    have he : edit_free_list s bp 1 =
        { s with mem := store64 (store64 s.mem bp 0) (bp + 8) 0, free_listp := bp } := by
      simp [edit_free_list, hflp]
    rw [he]
    refine ⟨rfl, ?_, ?_⟩
    · rw [repFL_cons_iff]
      refine ⟨rfl, hbp0, load64_store64_same _ _ _ (by norm_num), ?_⟩
      rw [repFL_nil_iff,
        load64_store64_disj _ _ _ _ (by omega) (by omega) (by omega),
        load64_store64_same _ _ _ (by norm_num)]
    · intro a ha _ hd
      show load32 (store64 (store64 s.mem bp 0) (bp + 8) 0) a = load32 s.mem a
      rw [load32_store64_disj _ _ _ _ ha (by omega) (by omega),
        load32_store64_disj _ _ _ _ ha (by omega) (by omega)]
  · rw [repFL_cons_iff] at hrep
    obtain ⟨hfl, hf0, hfprev, htail⟩ := hrep
    obtain ⟨⟨hf8, _, hf64⟩, hok2⟩ := (nodesOK_cons_iff f L2).mp hok
    obtain ⟨hs1, hs2⟩ := (sepA_cons_iff f bp 16 L2).mp hsep
    obtain ⟨hps1, hps2⟩ := (pairwiseSep_cons_iff f L2).mp hps
    have hfne : s.free_listp ≠ 0 := by rw [hfl]; exact hf0
    have he : edit_free_list s bp 1 =
        { s with
          mem := store64 (store64 (store64 s.mem (s.free_listp + 8) bp) bp
            s.free_listp) (bp + 8) 0,
          free_listp := bp } := by
      simp [edit_free_list, hfne]
    rw [he, hfl]
    refine ⟨rfl, ?_, ?_⟩
    · rw [repFL_cons_iff]
      refine ⟨rfl, hbp0, load64_store64_same _ _ _ (by norm_num), ?_⟩
      have ebp : load64 (store64 (store64 (store64 s.mem (f + 8) bp) bp f) (bp + 8) 0)
          bp = f := by
        rw [load64_store64_disj _ _ _ _ (by omega) (by omega) (by omega),
          load64_store64_same _ _ _ hf64]
      rw [ebp, repFL_cons_iff]
      refine ⟨rfl, hf0, ?_, ?_⟩
      · rw [load64_store64_disj _ _ _ _ (by omega) (by omega) (by omega),
          load64_store64_disj _ _ _ _ (by omega) (by omega) (by omega),
          load64_store64_same _ _ _ hbp64]
      · have ef : load64 (store64 (store64 (store64 s.mem (f + 8) bp) bp f) (bp + 8) 0)
            f = load64 s.mem f := by
          rw [load64_store64_disj _ _ _ _ (by omega) (by omega) (by omega),
            load64_store64_disj _ _ _ _ (by omega) (by omega) (by omega),
            load64_store64_disj _ _ _ _ (by omega) (by omega) (by omega)]
        rw [ef]
        refine repFL_frame64 L2 _ _ _ _ _ (by omega) hok2 ?_
          (repFL_frame64 L2 _ _ _ _ _ (by omega) hok2 ?_
            (repFL_frame64 L2 _ _ _ _ _ (by omega) hok2 ?_ htail))
        · exact sepA_of_forall L2 _ _ fun y hy => by
            have := sepA_mem L2 y bp 16 hy hs2
            omega
        · exact sepA_of_forall L2 _ _ fun y hy => by
            have := sepA_mem L2 y bp 16 hy hs2
            omega
        · exact sepA_of_forall L2 _ _ fun y hy => by
            have := hps1 y hy
            omega
    · intro a ha hsa hd
      obtain ⟨hsaf, _⟩ := (sepA_cons_iff f a 4 L2).mp hsa
      show load32 (store64 (store64 (store64 s.mem (f + 8) bp) bp f) (bp + 8) 0) a =
        load32 s.mem a
      rw [load32_store64_disj _ _ _ _ ha (by omega) (by omega),
        load32_store64_disj _ _ _ _ ha (by omega) (by omega),
        load32_store64_disj _ _ _ _ ha (by omega) (by omega)]

/-- Effect of `edit_free_list(bp, 0)` (removal): `bp` is unlinked from
the represented list, and memory outside the nodes' link regions is
untouched. -/
theorem edit_free_list_remove (A B : List Nat) (s : AState) (bp : Nat)
    (hrep : repFL s.mem 0 s.free_listp (A ++ bp :: B) = true)
    (hok : nodesOK (A ++ bp :: B) = true)
    (hps : pairwiseSep (A ++ bp :: B) = true) :
    (edit_free_list s bp 0).free_listp = (A ++ B).headD 0 ∧
    repFL (edit_free_list s bp 0).mem 0 ((A ++ B).headD 0) (A ++ B) = true ∧
    (∀ a, a % 4 = 0 → sepA (A ++ bp :: B) a 4 = true →
      load32 (edit_free_list s bp 0).mem a = load32 s.mem a) := by
  obtain ⟨prA, hdbp, hseg, hrepB⟩ :=
    (repFL_append_iff A s.mem 0 s.free_listp (bp :: B)).mp hrep
  rw [repFL_cons_iff] at hrepB
  obtain ⟨hhd, hbp0, hprev, htail⟩ := hrepB
  obtain rfl := hhd.symm
  obtain ⟨hokA, hokbpB⟩ := (nodesOK_append A (bp :: B)).mp hok
  obtain ⟨⟨hbp8, _, hbp64⟩, hokB⟩ := (nodesOK_cons_iff bp B).mp hokbpB
  obtain ⟨hpsA, hpsbpB, hAvB⟩ := (pairwiseSep_append A (bp :: B)).mp hps
  obtain ⟨hpsbp, hpsB⟩ := (pairwiseSep_cons_iff bp B).mp hpsbpB
  rcases A with _ | ⟨a0, A2⟩
  · obtain ⟨hpr0, hfl⟩ := (repSeg_nil_iff s.mem 0 s.free_listp prA bp).mp hseg
    rcases B with _ | ⟨y, ys⟩
    · have hnext : load64 s.mem bp = 0 := (repFL_nil_iff s.mem bp _).mp htail
      have he : edit_free_list s bp 0 = { s with free_listp := 0 } := by
        simp [edit_free_list, hprev, ← hpr0, hnext]
      rw [he]
      exact ⟨rfl, by simp [repFL], fun a _ _ => rfl⟩
    · rw [repFL_cons_iff] at htail
      obtain ⟨hnext, hy0, hyprev, hytail⟩ := htail
      obtain ⟨⟨hy8, _, hy64⟩, hokys⟩ := (nodesOK_cons_iff y ys).mp hokB
      obtain ⟨hpsy, hpsys⟩ := (pairwiseSep_cons_iff y ys).mp hpsB
      have he : edit_free_list s bp 0 =
          { s with mem := store64 s.mem (y + 8) 0, free_listp := y } := by
        simp [edit_free_list, hprev, ← hpr0, hnext, hy0]
      rw [he]
      refine ⟨rfl, ?_, ?_⟩
      · rw [List.nil_append, List.headD_cons, repFL_cons_iff]
        refine ⟨rfl, hy0, load64_store64_same _ _ _ (by norm_num), ?_⟩
        have ey : load64 (store64 s.mem (y + 8) 0) y = load64 s.mem y := by
          rw [load64_store64_disj _ _ _ _ (by omega) (by omega) (by omega)]
        rw [ey]
        refine repFL_frame64 ys _ _ _ _ _ (by omega) hokys ?_ hytail
        exact sepA_of_forall ys _ _ fun z hz => by
          have := hpsy z hz
          omega
      · intro a ha hsa
        obtain ⟨_, hsa2⟩ := (sepA_cons_iff bp a 4 (y :: ys)).mp hsa
        obtain ⟨hsay, _⟩ := (sepA_cons_iff y a 4 ys).mp hsa2
        show load32 (store64 s.mem (y + 8) 0) a = load32 s.mem a
        rw [load32_store64_disj _ _ _ _ ha (by omega) (by omega)]
  · have hAne : (a0 :: A2) ≠ [] := by simp
    have hprAmem : prA ∈ a0 :: A2 := repSeg_last_mem _ s.mem 0 s.free_listp prA bp hseg hAne
    obtain ⟨hprA8, hprA0, hprA64⟩ := nodesOK_mem _ _ hprAmem hokA
    have hfl : s.free_listp = a0 := ((repSeg_cons_iff s.mem 0 s.free_listp a0 prA bp A2).mp hseg).1
    rcases B with _ | ⟨y, ys⟩
    · have hnext : load64 s.mem bp = 0 := (repFL_nil_iff s.mem bp _).mp htail
      have he : edit_free_list s bp 0 = { s with mem := store64 s.mem prA 0 } := by
        simp [edit_free_list, hprev, hprA0, hnext]
      rw [he]
      refine ⟨?_, ?_, ?_⟩
      · simpa using hfl
      · rw [List.append_nil]
        have hseg2 : repSeg (store64 s.mem prA 0) 0 s.free_listp (a0 :: A2) prA 0 :=
          repSeg_set_next _ s.mem _ _ _ _ 0 hseg hAne hokA hpsA (by norm_num)
        have := (repFL_append_iff (a0 :: A2) (store64 s.mem prA 0) 0 s.free_listp []).mpr
          ⟨prA, 0, hseg2, by rw [repFL_nil_iff]⟩
        rw [List.append_nil, hfl] at this
        simpa using this
      · intro a ha hsa
        have hsaprA := sepA_mem _ prA a 4 (List.mem_append_left _ hprAmem) hsa
        show load32 (store64 s.mem prA 0) a = load32 s.mem a
        rw [load32_store64_disj _ _ _ _ ha (by omega) (by omega)]
    · rw [repFL_cons_iff] at htail
      obtain ⟨hnext, hy0, hyprev, hytail⟩ := htail
      obtain ⟨⟨hy8, _, hy64⟩, hokys⟩ := (nodesOK_cons_iff y ys).mp hokB
      obtain ⟨hpsy, hpsys⟩ := (pairwiseSep_cons_iff y ys).mp hpsB
      have hyB : y ∈ bp :: y :: ys := by simp
      have hAy : ∀ x ∈ a0 :: A2, x + 16 ≤ y ∨ y + 16 ≤ x := fun x hx => hAvB x hx y hyB
      have he : edit_free_list s bp 0 =
          { s with mem := store64 (store64 s.mem prA y) (y + 8) prA } := by
        simp [edit_free_list, hprev, hprA0, hnext, hy0]
      rw [he]
      have hprAy : prA + 16 ≤ y ∨ y + 16 ≤ prA := hAy prA hprAmem
      refine ⟨?_, ?_, ?_⟩
      · simpa using hfl
      · have hseg2 : repSeg (store64 s.mem prA y) 0 s.free_listp (a0 :: A2) prA y :=
          repSeg_set_next _ s.mem _ _ _ _ y hseg hAne hokA hpsA hy64
        have hseg3 : repSeg (store64 (store64 s.mem prA y) (y + 8) prA) 0
            s.free_listp (a0 :: A2) prA y := by
          refine repSeg_frame64 _ _ _ _ _ _ _ _ (by omega) hokA ?_ hseg2
          exact sepA_of_forall _ _ _ fun x hx => by
            have := hAy x hx
            omega
        have hrepB2 : repFL (store64 (store64 s.mem prA y) (y + 8) prA) prA y
            (y :: ys) = true := by
          rw [repFL_cons_iff]
          refine ⟨rfl, hy0, load64_store64_same _ _ _ hprA64, ?_⟩
          have ey : load64 (store64 (store64 s.mem prA y) (y + 8) prA) y =
              load64 s.mem y := by
            rw [load64_store64_disj _ _ _ _ (by omega) (by omega) (by omega),
              load64_store64_disj _ _ _ _ (by omega) (by omega) (by omega)]
          rw [ey]
          refine repFL_frame64 ys _ _ _ _ _ (by omega) hokys ?_
            (repFL_frame64 ys _ _ _ _ _ (by omega) hokys ?_ hytail)
          · exact sepA_of_forall ys _ _ fun z hz => by
              have := hpsy z hz
              omega
          · exact sepA_of_forall ys _ _ fun z hz => by
              have h1 := hAvB prA hprAmem z (by simp [hz])
              omega
        have := (repFL_append_iff (a0 :: A2) _ 0 s.free_listp (y :: ys)).mpr
          ⟨prA, y, hseg3, hrepB2⟩
        rw [hfl] at this
        simpa using this
      · intro a ha hsa
        have hsaprA := sepA_mem _ prA a 4 (List.mem_append_left _ hprAmem) hsa
        have hsay := sepA_mem _ y a 4 (List.mem_append_right _ hyB) hsa
        show load32 (store64 (store64 s.mem prA y) (y + 8) prA) a = load32 s.mem a
        rw [load32_store64_disj _ _ _ _ ha (by omega) (by omega),
          load32_store64_disj _ _ _ _ ha (by omega) (by omega)]

/-- A 32-bit load of a just-stored word. -/
theorem load32_store32_same (m : Mem) (a v : Nat) :
    load32 (store32 m a v) a = v % 4294967296 := by
  rw [load32_store32, if_pos rfl]

/-- `x | 0 = x`. -/
theorem PACK_zero (s : Nat) : PACK s 0 = s := Nat.or_zero s

/-- For an even size, `size | 1 = size + 1`. -/
theorem PACK_one (s : Nat) (h : s % 2 = 0) : PACK s 1 = s + 1 := by
  have h1 : s = Nat.bit false (s / 2) := by
    simp only [Nat.bit, cond_false]
    omega
  have h2 : (1 : Nat) = Nat.bit true 0 := by
    simp [Nat.bit]
  rw [PACK, h1, h2, Nat.lor_bit]
  simp only [Bool.or_true, Nat.or_zero, Nat.bit, cond_true, cond_false]

/-- `sizeField` is the identity on multiples of 8. -/
theorem sizeField_eq (s : Nat) (h : s % 8 = 0) : sizeField s = s := by
  unfold sizeField
  omega

/-- `GET_SIZE` of a packed free word. -/
theorem sizeField_PACK0 (s : Nat) (h : s % 8 = 0) : sizeField (PACK s 0) = s := by
  rw [PACK_zero, sizeField_eq s h]

/-- `GET_ALLOC` of a packed free word. -/
theorem allocField_PACK0 (s : Nat) (h : s % 8 = 0) : allocField (PACK s 0) = 0 := by
  rw [PACK_zero]
  unfold allocField
  omega

/-- `GET_SIZE` of a packed allocated word. -/
theorem sizeField_PACK1 (s : Nat) (h : s % 8 = 0) : sizeField (PACK s 1) = s := by
  rw [PACK_one s (by omega)]
  unfold sizeField
  omega

/-- `GET_ALLOC` of a packed allocated word. -/
theorem allocField_PACK1 (s : Nat) (h : s % 8 = 0) : allocField (PACK s 1) = 1 := by
  rw [PACK_one s (by omega)]
  unfold allocField
  omega

/-- `extend_heap` always grows by at least the 24-byte minimum block. -/
theorem extendSize_ge (w : Nat) : 24 ≤ extendSize w := by
  simp only [extendSize]
  split_ifs <;> omega

/-- The growth amount is double-word aligned. -/
theorem extendSize_mod8 (w : Nat) : extendSize w % 8 = 0 := by
  simp only [extendSize]
  split_ifs <;> omega

/-- `inReg` facts for a member. -/
theorem inReg_mem (L : List Nat) (y lo hi : Nat) (hy : y ∈ L) (h : inReg L lo hi = true) :
    lo ≤ y ∧ y + 16 ≤ hi := by
  simp only [inReg, List.all_eq_true] at h
  have := h y hy
  simpa using this

/-- `coalesce`, case 1 (both neighbors allocated): insert `bp` itself. -/
theorem coalesce_case1 (t : AState) (bp : Nat)
    (hpa : allocField (load32 t.mem (FTRP t.mem (PREV_BLKP t.mem bp))) ≠ 0 ∨
      PREV_BLKP t.mem bp = bp)
    (hna : allocField (load32 t.mem (HDRP (NEXT_BLKP t.mem bp))) ≠ 0) :
    coalesce t bp = (edit_free_list t bp 1, bp) := by
  simp only [coalesce]
  rw [if_pos ⟨hpa, hna⟩]

/-- `coalesce`, case 2 (only the successor is free). -/
theorem coalesce_case2 (t : AState) (bp : Nat)
    (hpa : allocField (load32 t.mem (FTRP t.mem (PREV_BLKP t.mem bp))) ≠ 0 ∨
      PREV_BLKP t.mem bp = bp)
    (hna : ¬ allocField (load32 t.mem (HDRP (NEXT_BLKP t.mem bp))) ≠ 0) :
    coalesce t bp =
      (let size2 := sizeField (load32 t.mem (HDRP bp)) +
        sizeField (load32 t.mem (HDRP (NEXT_BLKP t.mem bp)))
       let s1 := edit_free_list t (NEXT_BLKP t.mem bp) 0
       let m1 := store32 s1.mem (HDRP bp) (PACK size2 0)
       let m2 := store32 m1 (FTRP m1 bp) (PACK size2 0)
       (edit_free_list { s1 with mem := m2 } bp 1, bp)) := by
  simp only [coalesce]
  rw [if_neg (fun h => hna h.2), if_pos ⟨hpa, hna⟩]

/-- `coalesce`, case 3 (only the predecessor is free). -/
theorem coalesce_case3 (t : AState) (bp : Nat)
    (hpa : ¬(allocField (load32 t.mem (FTRP t.mem (PREV_BLKP t.mem bp))) ≠ 0 ∨
      PREV_BLKP t.mem bp = bp))
    (hna : allocField (load32 t.mem (HDRP (NEXT_BLKP t.mem bp))) ≠ 0) :
    coalesce t bp =
      (let pb := PREV_BLKP t.mem bp
       let size3 := sizeField (load32 t.mem (HDRP bp)) +
        sizeField (load32 t.mem (HDRP pb))
       let m1 := store32 t.mem (HDRP pb) (PACK size3 0)
       let m2 := store32 m1 (FTRP m1 pb) (PACK size3 0)
       let s1 := edit_free_list { t with mem := m2 } pb 0
       (edit_free_list s1 pb 1, pb)) := by
  simp only [coalesce]
  rw [if_neg (fun h => hpa h.1), if_neg (fun h => hpa h.1), if_pos ⟨hpa, hna⟩]

/-- `coalesce`, case 4 (both neighbors free). -/
theorem coalesce_case4 (t : AState) (bp : Nat)
    (hpa : ¬(allocField (load32 t.mem (FTRP t.mem (PREV_BLKP t.mem bp))) ≠ 0 ∨
      PREV_BLKP t.mem bp = bp))
    (hna : ¬ allocField (load32 t.mem (HDRP (NEXT_BLKP t.mem bp))) ≠ 0) :
    coalesce t bp =
      (let pb := PREV_BLKP t.mem bp
       let size4 := sizeField (load32 t.mem (HDRP bp)) +
        sizeField (load32 t.mem (HDRP pb)) +
        sizeField (load32 t.mem (FTRP t.mem (NEXT_BLKP t.mem bp)))
       let s1 := edit_free_list t (NEXT_BLKP t.mem bp) 0
       let pb1 := PREV_BLKP s1.mem bp
       let m1 := store32 s1.mem (HDRP pb1) (PACK size4 0)
       let pb2 := PREV_BLKP m1 bp
       let m2 := store32 m1 (FTRP m1 pb2) (PACK size4 0)
       let pb3 := PREV_BLKP m2 bp
       let s2 := edit_free_list { s1 with mem := m2 } pb3 0
       (edit_free_list s2 pb3 1, pb3)) := by
  simp only [coalesce]
  rw [if_neg (fun h => hpa h.1), if_neg (fun h => hpa h.1), if_neg (fun h => hna h.2)]

/-- Explicit form of the three boundary-tag writes of `extend_heap`:
free-block header at `brk - 4`, free-block footer at
`brk + size - 8`, new epilogue header at `brk + size - 4`. -/
theorem extend_heap_eq (s : AState) (words : Nat)
    (h8 : s.brk % 8 = 0) (hlo : 8 ≤ s.brk)
    (h32 : extendSize words < 4294967296) :
    extend_heap s words =
      coalesce { s with brk := s.brk + extendSize words,
                        mem := (store32 (store32 (store32 s.mem (s.brk - 4)
                          (PACK (extendSize words) 0))
                          (s.brk + extendSize words - 8) (PACK (extendSize words) 0))
                          (s.brk + extendSize words - 4) (PACK 0 1)) } s.brk := by
  have hsz8 := extendSize_mod8 words
  have hsz24 := extendSize_ge words
  have e1 : load32 (store32 s.mem (s.brk - 4) (PACK (extendSize words) 0)) (s.brk - 4) =
      extendSize words := by
    rw [load32_store32_same, PACK_zero, Nat.mod_eq_of_lt h32]
  have e2 : load32 (store32 (store32 s.mem (s.brk - 4) (PACK (extendSize words) 0))
      (s.brk + extendSize words - 8) (PACK (extendSize words) 0)) (s.brk - 4) =
      extendSize words := by
    rw [load32_store32_disj _ _ _ _ (by omega) (by omega) (by omega)]
    exact e1
  simp only [extend_heap, HDRP, FTRP, NEXT_BLKP]
  rw [e1, sizeField_eq _ hsz8, e2, sizeField_eq _ hsz8]

set_option maxHeartbeats 4000000 in
/-- C10: on any heap whose top is well formed — the block preceding the
epilogue has consistent boundary tags `fv`, and the free list is a well
formed doubly linked list lying below it (when that block is free it is
a list node) — every `extend_heap(words)` grows the region by exactly
`extendSize words`, which is at least 24 bytes and double-word aligned;
afterwards a zero-size allocated epilogue header `PACK 0 1` sits at the
new region end, and the returned block (the new space, merged with the
free predecessor when there is one) has identical free header and
footer `PACK S 0` whose footprint ends exactly at the new epilogue; the
merged block is moreover the new free-list head. -/
theorem c10_extend_heap_spec (s : AState) (words : Nat) (L A B : List Nat) (fv : Nat)
    (hfv : load32 s.mem (s.brk - 8) = fv)
    (hph : load32 s.mem (s.brk - sizeField fv - 4) = fv)
    (hbrk8 : s.brk % 8 = 0)
    (hlow : MBASE + 16 ≤ s.brk)
    (hsplo : 8 ≤ sizeField fv)
    (hsphi : sizeField fv + 16 ≤ s.brk)
    (hS32 : extendSize words + sizeField fv < 4294967296)
    (hb64 : s.brk < 2 ^ 64)
    (hrep : repFL s.mem 0 s.free_listp L = true)
    (hok : nodesOK L = true)
    (hps : pairwiseSep L = true)
    (hin : inReg L (MBASE + 16) (s.brk - 8) = true)
    (hsepPH : sepA L (s.brk - sizeField fv - 4) 4 = true)
    (hfree : allocField fv = 0 →
      24 ≤ sizeField fv ∧ L = A ++ (s.brk - sizeField fv) :: B) :
    (extend_heap s words).1.brk = s.brk + extendSize words ∧
    24 ≤ extendSize words ∧
    extendSize words % 8 = 0 ∧
    load32 (extend_heap s words).1.mem (s.brk + extendSize words - 4) = PACK 0 1 ∧
    (extend_heap s words).2 =
      (if allocField fv = 0 then s.brk - sizeField fv else s.brk) ∧
    (extend_heap s words).1.free_listp = (extend_heap s words).2 ∧
    load32 (extend_heap s words).1.mem ((extend_heap s words).2 - 4) =
      PACK (extendSize words + (if allocField fv = 0 then sizeField fv else 0)) 0 ∧
    load32 (extend_heap s words).1.mem ((extend_heap s words).2 +
        (extendSize words + (if allocField fv = 0 then sizeField fv else 0)) - 8) =
      PACK (extendSize words + (if allocField fv = 0 then sizeField fv else 0)) 0 ∧
    (extend_heap s words).2 +
        (extendSize words + (if allocField fv = 0 then sizeField fv else 0)) =
      s.brk + extendSize words ∧
    repFL (extend_heap s words).1.mem 0 (extend_heap s words).2
      ((extend_heap s words).2 :: (if allocField fv = 0 then A ++ B else L)) = true := by
  have hsz8 := extendSize_mod8 words
  have hsz24 := extendSize_ge words
  have h32 : extendSize words < 4294967296 := by omega
  have hlow24 : 24 ≤ s.brk := by simpa [MBASE] using hlow
  have hsp8 : sizeField fv % 8 = 0 := by unfold sizeField; omega
  rw [extend_heap_eq s words hbrk8 (by omega) h32]
  simp only [PACK_zero]
  set sz := extendSize words with hszd
  set M3 : Mem := store32 (store32 (store32 s.mem (s.brk - 4) sz) (s.brk + sz - 8) sz)
    (s.brk + sz - 4) (PACK 0 1) with hM3
  set t : AState := { s with brk := s.brk + sz, mem := M3 } with ht
  have tm : t.mem = M3 := rfl
  have tb : t.brk = s.brk + sz := rfl
  have tf : t.free_listp = s.free_listp := rfl
  have e_hdr : load32 M3 (s.brk - 4) = sz := by
    rw [hM3, load32_store32_disj _ _ _ _ (by omega) (by omega) (by omega),
      load32_store32_disj _ _ _ _ (by omega) (by omega) (by omega), load32_store32_same,
      Nat.mod_eq_of_lt h32]
  have e_ftr : load32 M3 (s.brk + sz - 8) = sz := by
    rw [hM3, load32_store32_disj _ _ _ _ (by omega) (by omega) (by omega), load32_store32_same,
      Nat.mod_eq_of_lt h32]
  have e_epi : load32 M3 (s.brk + sz - 4) = PACK 0 1 := by
    rw [hM3, load32_store32_same]
    decide
  have e_pf : load32 M3 (s.brk - 8) = fv := by
    rw [hM3, load32_store32_disj _ _ _ _ (by omega) (by omega) (by omega),
      load32_store32_disj _ _ _ _ (by omega) (by omega) (by omega),
      load32_store32_disj _ _ _ _ (by omega) (by omega) (by omega)]
    exact hfv
  have e_ph : load32 M3 (s.brk - sizeField fv - 4) = fv := by
    rw [hM3, load32_store32_disj _ _ _ _ (by omega) (by omega) (by omega),
      load32_store32_disj _ _ _ _ (by omega) (by omega) (by omega),
      load32_store32_disj _ _ _ _ (by omega) (by omega) (by omega)]
    exact hph
  have e_prevb : PREV_BLKP t.mem s.brk = s.brk - sizeField fv := by
    rw [tm, PREV_BLKP, e_pf]
  have e_ftrpb : FTRP t.mem (PREV_BLKP t.mem s.brk) = s.brk - 8 := by
    rw [e_prevb, tm, FTRP, HDRP, e_ph]
    omega
  have e_nb : NEXT_BLKP t.mem s.brk = s.brk + sz := by
    rw [tm, NEXT_BLKP, e_hdr, sizeField_eq _ hsz8]
  have e_na : allocField (load32 t.mem (HDRP (NEXT_BLKP t.mem s.brk))) = 1 := by
    rw [e_nb, HDRP, tm, e_epi]
    decide
  have hsep1 : sepA L (s.brk - 4) 4 = true :=
    sepA_of_forall _ _ _ fun y hy => by
      have := inReg_mem L y _ _ hy hin
      omega
  have hsep2 : sepA L (s.brk + sz - 8) 4 = true :=
    sepA_of_forall _ _ _ fun y hy => by
      have := inReg_mem L y _ _ hy hin
      omega
  have hsep3 : sepA L (s.brk + sz - 4) 4 = true :=
    sepA_of_forall _ _ _ fun y hy => by
      have := inReg_mem L y _ _ hy hin
      omega
  have hrep3 : repFL M3 0 s.free_listp L = true := by
    rw [hM3]
    exact repFL_frame32 L _ _ _ _ _ (by omega) hok hsep3
      (repFL_frame32 L _ _ _ _ _ (by omega) hok hsep2
        (repFL_frame32 L _ _ _ _ _ (by omega) hok hsep1 hrep))
  by_cases hpa : allocField fv = 0
  case neg =>
    have hco := coalesce_case1 t s.brk
      (Or.inl (by rw [e_ftrpb, tm, e_pf]; exact hpa))
      (by rw [e_na]; exact one_ne_zero)
    rw [hco]
    obtain ⟨hi1, hi2, hi3⟩ := edit_free_list_insert L t s.brk
      (by rw [tm, tf]; exact hrep3) hok hps hbrk8 (by omega) hb64
      (sepA_of_forall _ _ _ fun y hy => by
        have := inReg_mem L y _ _ hy hin
        omega)
    simp only [if_neg hpa, Nat.add_zero]
    refine ⟨?_, hsz24, hsz8, ?_, trivial, hi1, ?_, ?_, trivial, hi2⟩
    · rw [edit_free_list_brk, tb]
    · rw [hi3 (s.brk + sz - 4) (by omega) hsep3 (Or.inr (by omega)), tm]
      exact e_epi
    · rw [hi3 (s.brk - 4) (by omega) hsep1 (Or.inl (by omega)), tm]
      exact e_hdr
    · rw [hi3 (s.brk + sz - 8) (by omega) hsep2 (Or.inr (by omega)), tm]
      exact e_ftr
  case pos =>
    obtain ⟨hsp24, hLeq⟩ := hfree hpa
    have hmempb : (s.brk - sizeField fv) ∈ L := by
      rw [hLeq]
      exact List.mem_append_right _ (List.mem_cons_self _ _)
    obtain ⟨hpb8, hpb0, hpb64⟩ := nodesOK_mem L _ hmempb hok
    have hcond1 : ¬(allocField (load32 t.mem (FTRP t.mem (PREV_BLKP t.mem s.brk))) ≠ 0 ∨
        PREV_BLKP t.mem s.brk = s.brk) := by
      rintro (h | h)
      · rw [e_ftrpb, tm, e_pf] at h
        exact h hpa
      · rw [e_prevb] at h
        omega
    have hco := coalesce_case3 t s.brk hcond1 (by rw [e_na]; exact one_ne_zero)
    rw [hco]
    have e_hdrT : load32 t.mem (s.brk - 4) = sz := by rw [tm]; exact e_hdr
    have e_phT : load32 t.mem (s.brk - sizeField fv - 4) = fv := by rw [tm]; exact e_ph
    have e_szsz : sizeField sz = sz := sizeField_eq _ hsz8
    have e_ftrm1 : FTRP (store32 M3 (s.brk - sizeField fv - 4) (sizeField sz + sizeField fv))
        (s.brk - sizeField fv) = s.brk + sz - 8 := by
      rw [FTRP, HDRP, load32_store32_same, e_szsz, Nat.mod_eq_of_lt (by omega),
        sizeField_eq (sz + sizeField fv) (by omega)]
      omega
    simp only [e_prevb, HDRP, e_hdrT, e_phT, tm, PACK_zero, e_ftrm1, if_pos hpa]
    simp only [e_szsz]
    -- abbreviations for the two tag writes of case 3
    set M4 : Mem := store32 M3 (s.brk - sizeField fv - 4) (sz + sizeField fv) with hM4
    set M5 : Mem := store32 M4 (s.brk + sz - 8) (sz + sizeField fv) with hM5
    have hokL : nodesOK (A ++ (s.brk - sizeField fv) :: B) = true := by
      rw [← hLeq]
      exact hok
    have hpsL : pairwiseSep (A ++ (s.brk - sizeField fv) :: B) = true := by
      rw [← hLeq]
      exact hps
    have hrep5 : repFL M5 0 s.free_listp (A ++ (s.brk - sizeField fv) :: B) = true := by
      rw [hM5, hM4]
      refine repFL_frame32 _ _ _ _ _ _ (by omega) hokL ?_
        (repFL_frame32 _ _ _ _ _ _ (by omega) hokL ?_ (by rw [← hLeq]; exact hrep3))
      · rw [← hLeq]
        exact hsep2
      · rw [← hLeq]
        exact hsepPH
    obtain ⟨hr1, hr2, hr3⟩ := edit_free_list_remove A B { t with mem := M5 }
      (s.brk - sizeField fv) hrep5 hokL hpsL
    have hsubAB : ∀ y ∈ A ++ B, y ∈ L := by
      intro y hy
      rw [hLeq]
      rcases List.mem_append.mp hy with hy | hy
      · exact List.mem_append_left _ hy
      · exact List.mem_append_right _ (List.mem_cons_of_mem _ hy)
    have hokAB : nodesOK (A ++ B) = true := by
      rw [nodesOK_append]
      obtain ⟨h1, h2⟩ := (nodesOK_append A _).mp hokL
      exact ⟨h1, ((nodesOK_cons_iff _ _).mp h2).2⟩
    have hpsAB : pairwiseSep (A ++ B) = true := by
      obtain ⟨h1, h2, h3⟩ := (pairwiseSep_append A _).mp hpsL
      obtain ⟨h4, h5⟩ := (pairwiseSep_cons_iff _ _).mp h2
      rw [pairwiseSep_append]
      exact ⟨h1, h5, fun x hx y hy => h3 x hx y (List.mem_cons_of_mem _ hy)⟩
    have hrelpb : ∀ y ∈ A ++ B, s.brk - sizeField fv + 16 ≤ y ∨
        y + 16 ≤ s.brk - sizeField fv := by
      obtain ⟨h1, h2, h3⟩ := (pairwiseSep_append A _).mp hpsL
      obtain ⟨h4, h5⟩ := (pairwiseSep_cons_iff _ _).mp h2
      intro y hy
      rcases List.mem_append.mp hy with hy | hy
      · rcases h3 y hy _ (List.mem_cons_self _ _) with h | h
        · exact Or.inr h
        · exact Or.inl h
      · exact h4 y hy
    have hrepIns : repFL (edit_free_list { t with mem := M5 } (s.brk - sizeField fv) 0).mem
        0 (edit_free_list { t with mem := M5 } (s.brk - sizeField fv) 0).free_listp
        (A ++ B) = true := by
      rw [hr1]
      exact hr2
    obtain ⟨hi1, hi2, hi3⟩ := edit_free_list_insert (A ++ B)
      (edit_free_list { t with mem := M5 } (s.brk - sizeField fv) 0)
      (s.brk - sizeField fv) hrepIns hokAB hpsAB hpb8 hpb0 hpb64
      (sepA_of_forall _ _ _ hrelpb)
    have hsepL3 : sepA (A ++ (s.brk - sizeField fv) :: B) (s.brk + sz - 4) 4 = true := by
      rw [← hLeq]
      exact hsep3
    have hsepL1 : sepA (A ++ (s.brk - sizeField fv) :: B) (s.brk - sizeField fv - 4) 4 =
        true := by
      rw [← hLeq]
      exact hsepPH
    have hsepL2 : sepA (A ++ (s.brk - sizeField fv) :: B) (s.brk + sz - 8) 4 = true := by
      rw [← hLeq]
      exact hsep2
    have hsepAB3 : sepA (A ++ B) (s.brk + sz - 4) 4 = true :=
      sepA_of_forall _ _ _ fun y hy => by
        have := inReg_mem L y _ _ (hsubAB y hy) hin
        omega
    have hsepAB1 : sepA (A ++ B) (s.brk - sizeField fv - 4) 4 = true :=
      sepA_of_forall _ _ _ fun y hy =>
        sepA_mem _ y _ _ (hsubAB y hy) hsepPH
    have hsepAB2 : sepA (A ++ B) (s.brk + sz - 8) 4 = true :=
      sepA_of_forall _ _ _ fun y hy => by
        have := inReg_mem L y _ _ (hsubAB y hy) hin
        omega
    have e5_epi : load32 M5 (s.brk + sz - 4) = PACK 0 1 := by
      rw [hM5, hM4, load32_store32_disj _ _ _ _ (by omega) (by omega) (by omega),
        load32_store32_disj _ _ _ _ (by omega) (by omega) (by omega)]
      exact e_epi
    have e5_hdr : load32 M5 (s.brk - sizeField fv - 4) = sz + sizeField fv := by
      rw [hM5, load32_store32_disj _ _ _ _ (by omega) (by omega) (by omega), hM4,
        load32_store32_same, Nat.mod_eq_of_lt (by omega)]
    have e5_ftr : load32 M5 (s.brk + sz - 8) = sz + sizeField fv := by
      rw [hM5, load32_store32_same, Nat.mod_eq_of_lt (by omega)]
    refine ⟨?_, hsz24, hsz8, ?_, trivial, hi1, ?_, ?_, by omega, hi2⟩
    · rw [edit_free_list_brk, edit_free_list_brk]
    · rw [hi3 (s.brk + sz - 4) (by omega) hsepAB3 (Or.inr (by omega)),
        hr3 (s.brk + sz - 4) (by omega) hsepL3]
      exact e5_epi
    · rw [hi3 (s.brk - sizeField fv - 4) (by omega) hsepAB1 (Or.inl (by omega)),
        hr3 (s.brk - sizeField fv - 4) (by omega) hsepL1]
      exact e5_hdr
    · rw [show s.brk - sizeField fv + (sz + sizeField fv) - 8 = s.brk + sz - 8 by omega,
        hi3 (s.brk + sz - 8) (by omega) hsepAB2 (Or.inr (by omega)),
        hr3 (s.brk + sz - 8) (by omega) hsepL2]
      exact e5_ftr

/-- C10 witness: the extension theorem applied to the freshly
initialized heap (whose topmost block, the initial free block of size
`CHUNKSIZE`, is free) with `words = 10`: the region grows by
`extendSize 10 = 40` bytes and every hypothesis holds by evaluation. -/
theorem c10_extend_heap_spec_witness :
    (extend_heap sInit 10).1.brk = sInit.brk + extendSize 10 ∧
    24 ≤ extendSize 10 :=
  have h := c10_extend_heap_spec sInit 10 [24] [] [] 65536 (by decide) (by decide)
    (by decide) (by decide) (by decide) (by decide) (by decide) (by decide)
    (by decide) (by decide) (by decide) (by decide) (by decide) (by decide)
  ⟨h.1, h.2.1⟩

/-- Postcondition of `coalesce`, case 1: the freed block itself (whose
boundary tags must already carry its size, free) becomes the free-list
head; its tags are untouched. -/
theorem coalesce_post1 (t : AState) (bp sz : Nat) (L : List Nat)
    (hh : load32 t.mem (bp - 4) = sz)
    (hft : load32 t.mem (bp + sz - 8) = sz)
    (hsz24 : 24 ≤ sz) (hsz8 : sz % 8 = 0)
    (hlo : 32 ≤ bp) (hbp8 : bp % 8 = 0) (hbp64 : bp < 2 ^ 64)
    (hpa : allocField (load32 t.mem (FTRP t.mem (PREV_BLKP t.mem bp))) ≠ 0 ∨
      PREV_BLKP t.mem bp = bp)
    (hna : allocField (load32 t.mem (HDRP (NEXT_BLKP t.mem bp))) ≠ 0)
    (hrep : repFL t.mem 0 t.free_listp L = true)
    (hok : nodesOK L = true)
    (hps : pairwiseSep L = true)
    (hsep2 : sepA L (bp - 4) 4 = true)
    (hsep3 : sepA L (bp + sz - 8) 4 = true)
    (hsepBP : sepA L bp 16 = true) :
    (coalesce t bp).2 = bp ∧
    (coalesce t bp).1.brk = t.brk ∧
    (coalesce t bp).1.free_listp = bp ∧
    load32 (coalesce t bp).1.mem (bp - 4) = sz ∧
    load32 (coalesce t bp).1.mem (bp + sz - 8) = sz ∧
    repFL (coalesce t bp).1.mem 0 bp (bp :: L) = true := by
  rw [coalesce_case1 t bp hpa hna]
  obtain ⟨hi1, hi2, hi3⟩ := edit_free_list_insert L t bp hrep hok hps hbp8
    (by omega) hbp64 hsepBP
  refine ⟨rfl, edit_free_list_brk t bp 1, hi1, ?_, ?_, hi2⟩
  · rw [hi3 (bp - 4) (by omega) hsep2 (Or.inl (by omega))]
    exact hh
  · rw [hi3 (bp + sz - 8) (by omega) hsep3 (Or.inr (by omega))]
    exact hft

/-- Postcondition of `coalesce`, case 2: the freed block absorbs its
free successor (a free-list node), which is unlinked; the merged block
becomes the free-list head with fresh matching tags. -/
theorem coalesce_post2 (t : AState) (bp sz nv : Nat) (LA LB : List Nat)
    (hh : load32 t.mem (bp - 4) = sz)
    (hsz24 : 24 ≤ sz) (hsz8 : sz % 8 = 0)
    (hlo : 32 ≤ bp) (hbp8 : bp % 8 = 0) (hbp64 : bp < 2 ^ 64)
    (hnv : load32 t.mem (bp + sz - 4) = nv)
    (hn24 : 24 ≤ sizeField nv)
    (hS32 : sz + sizeField nv < 4294967296)
    (hpa : allocField (load32 t.mem (FTRP t.mem (PREV_BLKP t.mem bp))) ≠ 0 ∨
      PREV_BLKP t.mem bp = bp)
    (hna : ¬ allocField (load32 t.mem (HDRP (NEXT_BLKP t.mem bp))) ≠ 0)
    (hrep : repFL t.mem 0 t.free_listp (LA ++ (bp + sz) :: LB) = true)
    (hok : nodesOK (LA ++ (bp + sz) :: LB) = true)
    (hps : pairwiseSep (LA ++ (bp + sz) :: LB) = true)
    (hsep2 : sepA (LA ++ (bp + sz) :: LB) (bp - 4) 4 = true)
    (hsepN : sepA (LA ++ (bp + sz) :: LB) (bp + sz + sizeField nv - 8) 4 = true)
    (hsepBP : sepA (LA ++ (bp + sz) :: LB) bp 16 = true) :
    (coalesce t bp).2 = bp ∧
    (coalesce t bp).1.brk = t.brk ∧
    (coalesce t bp).1.free_listp = bp ∧
    load32 (coalesce t bp).1.mem (bp - 4) = sz + sizeField nv ∧
    load32 (coalesce t bp).1.mem (bp + sz + sizeField nv - 8) = sz + sizeField nv ∧
    repFL (coalesce t bp).1.mem 0 bp (bp :: (LA ++ LB)) = true := by
  have hszf : sizeField sz = sz := sizeField_eq _ hsz8
  have hsn8 : sizeField nv % 8 = 0 := by simp only [sizeField]; omega
  have enb : NEXT_BLKP t.mem bp = bp + sz := by
    rw [NEXT_BLKP, hh, hszf]
  obtain ⟨hr1, hr2, hr3⟩ := edit_free_list_remove LA LB t (bp + sz) hrep hok hps
  have e_ftr2 : FTRP (store32 (edit_free_list t (bp + sz) 0).mem (bp - 4)
      (sz + sizeField nv)) bp = bp + sz + sizeField nv - 8 := by
    rw [FTRP, HDRP, load32_store32_same, Nat.mod_eq_of_lt (by omega),
      sizeField_eq (sz + sizeField nv) (by omega)]
    omega
  rw [coalesce_case2 t bp hpa hna]
  simp only [enb, HDRP, hh, hnv, hszf, PACK_zero, e_ftr2]
  set M1 : Mem := store32 (edit_free_list t (bp + sz) 0).mem (bp - 4)
    (sz + sizeField nv) with hM1
  set M2 : Mem := store32 M1 (bp + sz + sizeField nv - 8) (sz + sizeField nv) with hM2
  have hsub : ∀ y ∈ LA ++ LB, y ∈ LA ++ (bp + sz) :: LB := by
    intro y hy
    rcases List.mem_append.mp hy with hy | hy
    · exact List.mem_append_left _ hy
    · exact List.mem_append_right _ (List.mem_cons_of_mem _ hy)
  have hokAB : nodesOK (LA ++ LB) = true := by
    rw [nodesOK_append]
    obtain ⟨h1, h2⟩ := (nodesOK_append LA _).mp hok
    exact ⟨h1, ((nodesOK_cons_iff _ _).mp h2).2⟩
  have hpsAB : pairwiseSep (LA ++ LB) = true := by
    obtain ⟨h1, h2, h3⟩ := (pairwiseSep_append LA _).mp hps
    obtain ⟨h4, h5⟩ := (pairwiseSep_cons_iff _ _).mp h2
    rw [pairwiseSep_append]
    exact ⟨h1, h5, fun x hx y hy => h3 x hx y (List.mem_cons_of_mem _ hy)⟩
  have hsepAB2 : sepA (LA ++ LB) (bp - 4) 4 = true :=
    sepA_of_forall _ _ _ fun y hy => sepA_mem _ y _ _ (hsub y hy) hsep2
  have hsepABN : sepA (LA ++ LB) (bp + sz + sizeField nv - 8) 4 = true :=
    sepA_of_forall _ _ _ fun y hy => sepA_mem _ y _ _ (hsub y hy) hsepN
  have hsepABbp : sepA (LA ++ LB) bp 16 = true :=
    sepA_of_forall _ _ _ fun y hy => sepA_mem _ y _ _ (hsub y hy) hsepBP
  have hrepM2 : repFL M2 0
      ({ edit_free_list t (bp + sz) 0 with mem := M2 } : AState).free_listp
      (LA ++ LB) = true := by
    show repFL M2 0 (edit_free_list t (bp + sz) 0).free_listp (LA ++ LB) = true
    rw [hM2, hM1, hr1]
    exact repFL_frame32 _ _ _ _ _ _ (by omega) hokAB hsepABN
      (repFL_frame32 _ _ _ _ _ _ (by omega) hokAB hsepAB2 hr2)
  obtain ⟨hi1, hi2, hi3⟩ := edit_free_list_insert (LA ++ LB)
    { edit_free_list t (bp + sz) 0 with mem := M2 } bp hrepM2 hokAB hpsAB hbp8
    (by omega) hbp64 hsepABbp
  have e_hdr : load32 M2 (bp - 4) = sz + sizeField nv := by
    rw [hM2, load32_store32_disj _ _ _ _ (by omega) (by omega) (by omega), hM1,
      load32_store32_same, Nat.mod_eq_of_lt (by omega)]
  have e_ftrv : load32 M2 (bp + sz + sizeField nv - 8) = sz + sizeField nv := by
    rw [hM2, load32_store32_same, Nat.mod_eq_of_lt (by omega)]
  refine ⟨trivial, ?_, hi1, ?_, ?_, hi2⟩
  · rw [edit_free_list_brk]
    show (edit_free_list t (bp + sz) 0).brk = t.brk
    rw [edit_free_list_brk]
  · rw [hi3 (bp - 4) (by omega) hsepAB2 (Or.inl (by omega))]
    exact e_hdr
  · rw [hi3 (bp + sz + sizeField nv - 8) (by omega) hsepABN (Or.inr (by omega))]
    exact e_ftrv

/-- Postcondition of `coalesce`, case 3: the freed block is absorbed by
its free predecessor (a free-list node), which is relinked at the head
of the free list with fresh matching tags covering both blocks. -/
theorem coalesce_post3 (t : AState) (bp sz fv : Nat) (LC LD : List Nat)
    (hh : load32 t.mem (bp - 4) = sz)
    (hsz24 : 24 ≤ sz) (hsz8 : sz % 8 = 0)
    (hbp8 : bp % 8 = 0) (hbp64 : bp < 2 ^ 64)
    (hfv : load32 t.mem (bp - 8) = fv)
    (hphv : load32 t.mem (bp - sizeField fv - 4) = fv)
    (hf24 : 24 ≤ sizeField fv) (hfb : sizeField fv + 32 ≤ bp)
    (hS32 : sz + sizeField fv < 4294967296)
    (hpa : ¬(allocField (load32 t.mem (FTRP t.mem (PREV_BLKP t.mem bp))) ≠ 0 ∨
      PREV_BLKP t.mem bp = bp))
    (hna : allocField (load32 t.mem (HDRP (NEXT_BLKP t.mem bp))) ≠ 0)
    (hrep : repFL t.mem 0 t.free_listp (LC ++ (bp - sizeField fv) :: LD) = true)
    (hok : nodesOK (LC ++ (bp - sizeField fv) :: LD) = true)
    (hps : pairwiseSep (LC ++ (bp - sizeField fv) :: LD) = true)
    (hsep3 : sepA (LC ++ (bp - sizeField fv) :: LD) (bp + sz - 8) 4 = true)
    (hsepP : sepA (LC ++ (bp - sizeField fv) :: LD) (bp - sizeField fv - 4) 4 = true) :
    (coalesce t bp).2 = bp - sizeField fv ∧
    (coalesce t bp).1.brk = t.brk ∧
    (coalesce t bp).1.free_listp = bp - sizeField fv ∧
    load32 (coalesce t bp).1.mem (bp - sizeField fv - 4) = sz + sizeField fv ∧
    load32 (coalesce t bp).1.mem (bp + sz - 8) = sz + sizeField fv ∧
    repFL (coalesce t bp).1.mem 0 (bp - sizeField fv)
      ((bp - sizeField fv) :: (LC ++ LD)) = true := by
  have hszf : sizeField sz = sz := sizeField_eq _ hsz8
  have hsf8 : sizeField fv % 8 = 0 := by simp only [sizeField]; omega
  have epb : PREV_BLKP t.mem bp = bp - sizeField fv := by rw [PREV_BLKP, hfv]
  have e_ftrm1 : FTRP (store32 t.mem (bp - sizeField fv - 4) (sz + sizeField fv))
      (bp - sizeField fv) = bp + sz - 8 := by
    rw [FTRP, HDRP, load32_store32_same, Nat.mod_eq_of_lt (by omega),
      sizeField_eq (sz + sizeField fv) (by omega)]
    omega
  rw [coalesce_case3 t bp hpa hna]
  simp only [epb, HDRP, hh, hphv, hszf, PACK_zero, e_ftrm1]
  set M1 : Mem := store32 t.mem (bp - sizeField fv - 4) (sz + sizeField fv) with hM1
  set M2 : Mem := store32 M1 (bp + sz - 8) (sz + sizeField fv) with hM2
  have hrepM2 : repFL ({ t with mem := M2 } : AState).mem 0
      ({ t with mem := M2 } : AState).free_listp
      (LC ++ (bp - sizeField fv) :: LD) = true := by
    show repFL M2 0 t.free_listp (LC ++ (bp - sizeField fv) :: LD) = true
    rw [hM2, hM1]
    exact repFL_frame32 _ _ _ _ _ _ (by omega) hok hsep3
      (repFL_frame32 _ _ _ _ _ _ (by omega) hok hsepP hrep)
  obtain ⟨hr1, hr2, hr3⟩ := edit_free_list_remove LC LD { t with mem := M2 }
    (bp - sizeField fv) hrepM2 hok hps
  have hsub : ∀ y ∈ LC ++ LD, y ∈ LC ++ (bp - sizeField fv) :: LD := by
    intro y hy
    rcases List.mem_append.mp hy with hy | hy
    · exact List.mem_append_left _ hy
    · exact List.mem_append_right _ (List.mem_cons_of_mem _ hy)
  have hokCD : nodesOK (LC ++ LD) = true := by
    rw [nodesOK_append]
    obtain ⟨h1, h2⟩ := (nodesOK_append LC _).mp hok
    exact ⟨h1, ((nodesOK_cons_iff _ _).mp h2).2⟩
  have hpsCD : pairwiseSep (LC ++ LD) = true := by
    obtain ⟨h1, h2, h3⟩ := (pairwiseSep_append LC _).mp hps
    obtain ⟨h4, h5⟩ := (pairwiseSep_cons_iff _ _).mp h2
    rw [pairwiseSep_append]
    exact ⟨h1, h5, fun x hx y hy => h3 x hx y (List.mem_cons_of_mem _ hy)⟩
  have hrelpb : ∀ y ∈ LC ++ LD, bp - sizeField fv + 16 ≤ y ∨
      y + 16 ≤ bp - sizeField fv := by
    obtain ⟨h1, h2, h3⟩ := (pairwiseSep_append LC _).mp hps
    obtain ⟨h4, h5⟩ := (pairwiseSep_cons_iff _ _).mp h2
    intro y hy
    rcases List.mem_append.mp hy with hy | hy
    · rcases h3 y hy _ (List.mem_cons_self _ _) with h | h
      · exact Or.inr h
      · exact Or.inl h
    · exact h4 y hy
  have hrepIns : repFL (edit_free_list { t with mem := M2 } (bp - sizeField fv) 0).mem
      0 (edit_free_list { t with mem := M2 } (bp - sizeField fv) 0).free_listp
      (LC ++ LD) = true := by
    rw [hr1]
    exact hr2
  obtain ⟨hi1, hi2, hi3⟩ := edit_free_list_insert (LC ++ LD)
    (edit_free_list { t with mem := M2 } (bp - sizeField fv) 0)
    (bp - sizeField fv) hrepIns hokCD hpsCD (by omega) (by omega) (by omega)
    (sepA_of_forall _ _ _ hrelpb)
  have hsepCDP : sepA (LC ++ LD) (bp - sizeField fv - 4) 4 = true :=
    sepA_of_forall _ _ _ fun y hy => sepA_mem _ y _ _ (hsub y hy) hsepP
  have hsepCD3 : sepA (LC ++ LD) (bp + sz - 8) 4 = true :=
    sepA_of_forall _ _ _ fun y hy => sepA_mem _ y _ _ (hsub y hy) hsep3
  have e_hdrM2 : load32 M2 (bp - sizeField fv - 4) = sz + sizeField fv := by
    rw [hM2, load32_store32_disj _ _ _ _ (by omega) (by omega) (by omega), hM1,
      load32_store32_same, Nat.mod_eq_of_lt (by omega)]
  have e_ftrM2 : load32 M2 (bp + sz - 8) = sz + sizeField fv := by
    rw [hM2, load32_store32_same, Nat.mod_eq_of_lt (by omega)]
  refine ⟨trivial, ?_, hi1, ?_, ?_, hi2⟩
  · rw [edit_free_list_brk]
    show (edit_free_list { t with mem := M2 } (bp - sizeField fv) 0).brk = t.brk
    rw [edit_free_list_brk]
  · rw [hi3 (bp - sizeField fv - 4) (by omega) hsepCDP (Or.inl (by omega)),
      hr3 (bp - sizeField fv - 4) (by omega) hsepP]
    exact e_hdrM2
  · rw [hi3 (bp + sz - 8) (by omega) hsepCD3 (Or.inr (by omega)),
      hr3 (bp + sz - 8) (by omega) hsep3]
    exact e_ftrM2

set_option maxHeartbeats 4000000 in
/-- Postcondition of `coalesce`, case 4: the freed block absorbs both
free neighbors; the successor and the predecessor (both free-list
nodes) are unlinked and the predecessor, now carrying matching tags
over the whole footprint, is reinserted at the head. -/
theorem coalesce_post4 (t : AState) (bp sz fv nv : Nat) (LA LB LC LD : List Nat)
    (hh : load32 t.mem (bp - 4) = sz)
    (hsz24 : 24 ≤ sz) (hsz8 : sz % 8 = 0)
    (hbp8 : bp % 8 = 0) (hbp64 : bp < 2 ^ 64)
    (hfv : load32 t.mem (bp - 8) = fv)
    (hphv : load32 t.mem (bp - sizeField fv - 4) = fv)
    (hf24 : 24 ≤ sizeField fv) (hfb : sizeField fv + 32 ≤ bp)
    (hnv : load32 t.mem (bp + sz - 4) = nv)
    (hnft : load32 t.mem (bp + sz + sizeField nv - 8) = nv)
    (hn24 : 24 ≤ sizeField nv)
    (hS32 : sz + sizeField fv + sizeField nv < 4294967296)
    (hpa : ¬(allocField (load32 t.mem (FTRP t.mem (PREV_BLKP t.mem bp))) ≠ 0 ∨
      PREV_BLKP t.mem bp = bp))
    (hna : ¬ allocField (load32 t.mem (HDRP (NEXT_BLKP t.mem bp))) ≠ 0)
    (hrep : repFL t.mem 0 t.free_listp (LA ++ (bp + sz) :: LB) = true)
    (hok : nodesOK (LA ++ (bp + sz) :: LB) = true)
    (hps : pairwiseSep (LA ++ (bp + sz) :: LB) = true)
    (hsplit : LA ++ LB = LC ++ (bp - sizeField fv) :: LD)
    (hsep1 : sepA (LA ++ (bp + sz) :: LB) (bp - 8) 4 = true)
    (hsepP : sepA (LA ++ (bp + sz) :: LB) (bp - sizeField fv - 4) 4 = true)
    (hsepN : sepA (LA ++ (bp + sz) :: LB) (bp + sz + sizeField nv - 8) 4 = true) :
    (coalesce t bp).2 = bp - sizeField fv ∧
    (coalesce t bp).1.brk = t.brk ∧
    (coalesce t bp).1.free_listp = bp - sizeField fv ∧
    load32 (coalesce t bp).1.mem (bp - sizeField fv - 4) =
      sz + sizeField fv + sizeField nv ∧
    load32 (coalesce t bp).1.mem (bp + sz + sizeField nv - 8) =
      sz + sizeField fv + sizeField nv ∧
    repFL (coalesce t bp).1.mem 0 (bp - sizeField fv)
      ((bp - sizeField fv) :: (LC ++ LD)) = true := by
  have hszf : sizeField sz = sz := sizeField_eq _ hsz8
  have hsf8 : sizeField fv % 8 = 0 := by simp only [sizeField]; omega
  have hsn8 : sizeField nv % 8 = 0 := by simp only [sizeField]; omega
  have epb : PREV_BLKP t.mem bp = bp - sizeField fv := by rw [PREV_BLKP, hfv]
  have enb : NEXT_BLKP t.mem bp = bp + sz := by rw [NEXT_BLKP, hh, hszf]
  have e_ftrn : FTRP t.mem (bp + sz) = bp + sz + sizeField nv - 8 := by
    rw [FTRP, HDRP, hnv]
  obtain ⟨hr1, hr2, hr3⟩ := edit_free_list_remove LA LB t (bp + sz) hrep hok hps
  have e_pf1 : load32 (edit_free_list t (bp + sz) 0).mem (bp - 8) = fv := by
    rw [hr3 (bp - 8) (by omega) hsep1]
    exact hfv
  have e_pb1 : PREV_BLKP (edit_free_list t (bp + sz) 0).mem bp = bp - sizeField fv := by
    rw [PREV_BLKP, e_pf1]
  have e_pb2 : PREV_BLKP (store32 (edit_free_list t (bp + sz) 0).mem
      (bp - sizeField fv - 4) (sz + sizeField fv + sizeField nv)) bp =
      bp - sizeField fv := by
    rw [PREV_BLKP, load32_store32_disj _ _ _ _ (by omega) (by omega) (by omega), e_pf1]
  have e_ftrm1 : FTRP (store32 (edit_free_list t (bp + sz) 0).mem
      (bp - sizeField fv - 4) (sz + sizeField fv + sizeField nv)) (bp - sizeField fv) =
      bp + sz + sizeField nv - 8 := by
    rw [FTRP, HDRP, load32_store32_same, Nat.mod_eq_of_lt (by omega),
      sizeField_eq (sz + sizeField fv + sizeField nv) (by omega)]
    omega
  have e_pb3 : PREV_BLKP (store32 (store32 (edit_free_list t (bp + sz) 0).mem
      (bp - sizeField fv - 4) (sz + sizeField fv + sizeField nv))
      (bp + sz + sizeField nv - 8) (sz + sizeField fv + sizeField nv)) bp =
      bp - sizeField fv := by
    rw [PREV_BLKP, load32_store32_disj _ _ _ _ (by omega) (by omega) (by omega),
      load32_store32_disj _ _ _ _ (by omega) (by omega) (by omega), e_pf1]
  rw [coalesce_case4 t bp hpa hna]
  simp only [epb, enb, HDRP, hh, hphv, hnft, hszf, e_ftrn, PACK_zero, e_pb1,
    e_ftrm1, e_pb2, e_pb3]
  set M1 : Mem := store32 (edit_free_list t (bp + sz) 0).mem (bp - sizeField fv - 4)
    (sz + sizeField fv + sizeField nv) with hM1
  set M2 : Mem := store32 M1 (bp + sz + sizeField nv - 8)
    (sz + sizeField fv + sizeField nv) with hM2
  have hsubAB : ∀ y ∈ LA ++ LB, y ∈ LA ++ (bp + sz) :: LB := by
    intro y hy
    rcases List.mem_append.mp hy with hy | hy
    · exact List.mem_append_left _ hy
    · exact List.mem_append_right _ (List.mem_cons_of_mem _ hy)
  have hsubCDfull : ∀ y ∈ LC ++ (bp - sizeField fv) :: LD,
      y ∈ LA ++ (bp + sz) :: LB := by
    intro y hy
    refine hsubAB y ?_
    rw [hsplit]
    exact hy
  have hokAB : nodesOK (LA ++ LB) = true := by
    rw [nodesOK_append]
    obtain ⟨h1, h2⟩ := (nodesOK_append LA _).mp hok
    exact ⟨h1, ((nodesOK_cons_iff _ _).mp h2).2⟩
  have hpsAB : pairwiseSep (LA ++ LB) = true := by
    obtain ⟨h1, h2, h3⟩ := (pairwiseSep_append LA _).mp hps
    obtain ⟨h4, h5⟩ := (pairwiseSep_cons_iff _ _).mp h2
    rw [pairwiseSep_append]
    exact ⟨h1, h5, fun x hx y hy => h3 x hx y (List.mem_cons_of_mem _ hy)⟩
  have hokCDf : nodesOK (LC ++ (bp - sizeField fv) :: LD) = true := by
    rw [← hsplit]
    exact hokAB
  have hpsCDf : pairwiseSep (LC ++ (bp - sizeField fv) :: LD) = true := by
    rw [← hsplit]
    exact hpsAB
  have hsepABP : sepA (LA ++ LB) (bp - sizeField fv - 4) 4 = true :=
    sepA_of_forall _ _ _ fun y hy => sepA_mem _ y _ _ (hsubAB y hy) hsepP
  have hsepABN : sepA (LA ++ LB) (bp + sz + sizeField nv - 8) 4 = true :=
    sepA_of_forall _ _ _ fun y hy => sepA_mem _ y _ _ (hsubAB y hy) hsepN
  have hsepPf : sepA (LC ++ (bp - sizeField fv) :: LD) (bp - sizeField fv - 4) 4 =
      true := by
    rw [← hsplit]
    exact hsepABP
  have hsepNf : sepA (LC ++ (bp - sizeField fv) :: LD) (bp + sz + sizeField nv - 8) 4 =
      true := by
    rw [← hsplit]
    exact hsepABN
  have hrepM2 : repFL ({ edit_free_list t (bp + sz) 0 with mem := M2 } : AState).mem 0
      ({ edit_free_list t (bp + sz) 0 with mem := M2 } : AState).free_listp
      (LC ++ (bp - sizeField fv) :: LD) = true := by
    show repFL M2 0 (edit_free_list t (bp + sz) 0).free_listp
      (LC ++ (bp - sizeField fv) :: LD) = true
    rw [hr1, ← hsplit, hM2, hM1]
    exact repFL_frame32 _ _ _ _ _ _ (by omega) hokAB hsepABN
      (repFL_frame32 _ _ _ _ _ _ (by omega) hokAB hsepABP hr2)
  obtain ⟨hq1, hq2, hq3⟩ := edit_free_list_remove LC LD
    { edit_free_list t (bp + sz) 0 with mem := M2 } (bp - sizeField fv)
    hrepM2 hokCDf hpsCDf
  have hsubCD : ∀ y ∈ LC ++ LD, y ∈ LC ++ (bp - sizeField fv) :: LD := by
    intro y hy
    rcases List.mem_append.mp hy with hy | hy
    · exact List.mem_append_left _ hy
    · exact List.mem_append_right _ (List.mem_cons_of_mem _ hy)
  have hokCD : nodesOK (LC ++ LD) = true := by
    rw [nodesOK_append]
    obtain ⟨h1, h2⟩ := (nodesOK_append LC _).mp hokCDf
    exact ⟨h1, ((nodesOK_cons_iff _ _).mp h2).2⟩
  have hpsCD : pairwiseSep (LC ++ LD) = true := by
    obtain ⟨h1, h2, h3⟩ := (pairwiseSep_append LC _).mp hpsCDf
    obtain ⟨h4, h5⟩ := (pairwiseSep_cons_iff _ _).mp h2
    rw [pairwiseSep_append]
    exact ⟨h1, h5, fun x hx y hy => h3 x hx y (List.mem_cons_of_mem _ hy)⟩
  have hrelpb : ∀ y ∈ LC ++ LD, bp - sizeField fv + 16 ≤ y ∨
      y + 16 ≤ bp - sizeField fv := by
    obtain ⟨h1, h2, h3⟩ := (pairwiseSep_append LC _).mp hpsCDf
    obtain ⟨h4, h5⟩ := (pairwiseSep_cons_iff _ _).mp h2
    intro y hy
    rcases List.mem_append.mp hy with hy | hy
    · rcases h3 y hy _ (List.mem_cons_self _ _) with h | h
      · exact Or.inr h
      · exact Or.inl h
    · exact h4 y hy
  have hrepIns : repFL (edit_free_list
      { edit_free_list t (bp + sz) 0 with mem := M2 } (bp - sizeField fv) 0).mem 0
      (edit_free_list { edit_free_list t (bp + sz) 0 with mem := M2 }
        (bp - sizeField fv) 0).free_listp (LC ++ LD) = true := by
    rw [hq1]
    exact hq2
  obtain ⟨hi1, hi2, hi3⟩ := edit_free_list_insert (LC ++ LD)
    (edit_free_list { edit_free_list t (bp + sz) 0 with mem := M2 }
      (bp - sizeField fv) 0)
    (bp - sizeField fv) hrepIns hokCD hpsCD (by omega) (by omega) (by omega)
    (sepA_of_forall _ _ _ hrelpb)
  have hsepCDP : sepA (LC ++ LD) (bp - sizeField fv - 4) 4 = true :=
    sepA_of_forall _ _ _ fun y hy => sepA_mem _ y _ _ (hsubCD y hy) hsepPf
  have hsepCDN : sepA (LC ++ LD) (bp + sz + sizeField nv - 8) 4 = true :=
    sepA_of_forall _ _ _ fun y hy => sepA_mem _ y _ _ (hsubCD y hy) hsepNf
  have e_hdrM2 : load32 M2 (bp - sizeField fv - 4) =
      sz + sizeField fv + sizeField nv := by
    rw [hM2, load32_store32_disj _ _ _ _ (by omega) (by omega) (by omega), hM1,
      load32_store32_same, Nat.mod_eq_of_lt (by omega)]
  have e_ftrM2 : load32 M2 (bp + sz + sizeField nv - 8) =
      sz + sizeField fv + sizeField nv := by
    rw [hM2, load32_store32_same, Nat.mod_eq_of_lt (by omega)]
  refine ⟨trivial, ?_, hi1, ?_, ?_, hi2⟩
  · rw [edit_free_list_brk]
    show (edit_free_list { edit_free_list t (bp + sz) 0 with mem := M2 }
      (bp - sizeField fv) 0).brk = t.brk
    rw [edit_free_list_brk]
    show (edit_free_list t (bp + sz) 0).brk = t.brk
    rw [edit_free_list_brk]
  · rw [hi3 (bp - sizeField fv - 4) (by omega) hsepCDP (Or.inl (by omega)),
      hq3 (bp - sizeField fv - 4) (by omega) hsepPf]
    exact e_hdrM2
  · rw [hi3 (bp + sz + sizeField nv - 8) (by omega) hsepCDN (Or.inr (by omega)),
      hq3 (bp + sz + sizeField nv - 8) (by omega) hsepNf]
    exact e_ftrM2

/-- C2 (amended): for every freed block of total size `sz ≥ 24` with
matching free boundary tags, sitting in a well-formed heap (consistent
neighbor tags, well-formed doubly linked free list whose nodes' link
areas avoid the words `coalesce` reads and writes, with the free
neighbors appearing on the list exactly where hypothesized), the
coalescer merges the block with whichever neighbors are free: it
returns the leftmost merged pointer, installs it as the free-list
head, writes matching free header and footer covering exactly the
merged footprint, unlinks the absorbed neighbors from the list, and
leaves the region end unchanged. -/
theorem c2_coalesce_spec (t : AState) (bp sz fv nv : Nat) (L LA LB LC LD : List Nat)
    (hh : load32 t.mem (HDRP bp) = sz)
    (hft : load32 t.mem (bp + sz - 8) = sz)
    (hsz24 : 24 ≤ sz) (hsz8 : sz % 8 = 0)
    (hfv : load32 t.mem (bp - 8) = fv)
    (hnv : load32 t.mem (bp + sz - 4) = nv)
    (hlo : 32 ≤ bp) (hbp8 : bp % 8 = 0) (hbp64 : bp < 2 ^ 64)
    (hS32 : sz + sizeField fv + sizeField nv < 4294967296)
    (hph : sizeField fv ≠ 0 → sizeField fv + 32 ≤ bp ∧
      load32 t.mem (bp - sizeField fv - 4) = fv)
    (hrep : repFL t.mem 0 t.free_listp L = true)
    (hok : nodesOK L = true)
    (hps : pairwiseSep L = true)
    (hsep1 : sepA L (bp - 8) 4 = true)
    (hsep2 : sepA L (bp - 4) 4 = true)
    (hsep3 : sepA L (bp + sz - 8) 4 = true)
    (hsepBP : sepA L bp 16 = true)
    (hsepP : allocField fv = 0 ∧ sizeField fv ≠ 0 →
      sepA L (bp - sizeField fv - 4) 4 = true)
    (hsepN : allocField nv = 0 → sepA L (bp + sz + sizeField nv - 8) 4 = true)
    (hnext : allocField nv = 0 → 24 ≤ sizeField nv ∧
      load32 t.mem (bp + sz + sizeField nv - 8) = nv ∧ L = LA ++ (bp + sz) :: LB)
    (hprev : allocField fv = 0 ∧ sizeField fv ≠ 0 → 24 ≤ sizeField fv ∧
      (if allocField nv = 0 then LA ++ LB else L) = LC ++ (bp - sizeField fv) :: LD) :
    (coalesce t bp).2 =
      (if allocField fv = 0 ∧ sizeField fv ≠ 0 then bp - sizeField fv else bp) ∧
    (coalesce t bp).1.brk = t.brk ∧
    (coalesce t bp).1.free_listp = (coalesce t bp).2 ∧
    load32 (coalesce t bp).1.mem ((coalesce t bp).2 - 4) =
      PACK (sz + (if allocField fv = 0 ∧ sizeField fv ≠ 0 then sizeField fv else 0) +
        (if allocField nv = 0 then sizeField nv else 0)) 0 ∧
    load32 (coalesce t bp).1.mem ((coalesce t bp).2 +
        (sz + (if allocField fv = 0 ∧ sizeField fv ≠ 0 then sizeField fv else 0) +
          (if allocField nv = 0 then sizeField nv else 0)) - 8) =
      PACK (sz + (if allocField fv = 0 ∧ sizeField fv ≠ 0 then sizeField fv else 0) +
        (if allocField nv = 0 then sizeField nv else 0)) 0 ∧
    (coalesce t bp).2 +
        (sz + (if allocField fv = 0 ∧ sizeField fv ≠ 0 then sizeField fv else 0) +
          (if allocField nv = 0 then sizeField nv else 0)) =
      bp + sz + (if allocField nv = 0 then sizeField nv else 0) ∧
    repFL (coalesce t bp).1.mem 0 (coalesce t bp).2
      ((coalesce t bp).2 ::
        (if allocField fv = 0 ∧ sizeField fv ≠ 0 then LC ++ LD
          else if allocField nv = 0 then LA ++ LB else L)) = true := by
  simp only [HDRP] at hh
  have hszf : sizeField sz = sz := sizeField_eq _ hsz8
  have epb : PREV_BLKP t.mem bp = bp - sizeField fv := by
    rw [PREV_BLKP, hfv]
  have enb : NEXT_BLKP t.mem bp = bp + sz := by
    rw [NEXT_BLKP, hh, hszf]
  have ena : allocField (load32 t.mem (HDRP (NEXT_BLKP t.mem bp))) = allocField nv := by
    rw [enb, HDRP, hnv]
  by_cases hPF : allocField fv = 0 ∧ sizeField fv ≠ 0
  case pos =>
    obtain ⟨hfb, hphv⟩ := hph hPF.2
    obtain ⟨hf24, hLsplit⟩ := hprev hPF
    have e_ftrpb : FTRP t.mem (PREV_BLKP t.mem bp) = bp - 8 := by
      rw [epb, FTRP, HDRP, hphv]
      omega
    have hcondP : ¬(allocField (load32 t.mem (FTRP t.mem (PREV_BLKP t.mem bp))) ≠ 0 ∨
        PREV_BLKP t.mem bp = bp) := by
      rintro (h | h)
      · rw [e_ftrpb, hfv] at h
        exact h hPF.1
      · rw [epb] at h
        omega
    by_cases hNF : allocField nv = 0
    case pos =>
      obtain ⟨hn24, hnft, hLs⟩ := hnext hNF
      rw [if_pos hNF] at hLsplit
      have hcondN : ¬ allocField (load32 t.mem (HDRP (NEXT_BLKP t.mem bp))) ≠ 0 := by
        rw [ena]
        exact fun h2 => h2 hNF
      obtain ⟨p1, p2, p3, p4, p5, p6⟩ := coalesce_post4 t bp sz fv nv LA LB LC LD hh
        hsz24 hsz8 hbp8 hbp64 hfv hphv hf24 hfb hnv hnft hn24 hS32 hcondP hcondN
        (hLs ▸ hrep) (hLs ▸ hok) (hLs ▸ hps) hLsplit (hLs ▸ hsep1)
        (hLs ▸ hsepP hPF) (hLs ▸ hsepN hNF)
      rw [p1]
      simp only [if_pos hPF, if_pos hNF, PACK_zero]
      refine ⟨trivial, p2, ?_, p4, ?_, by omega, p6⟩
      · rw [p3]
      · rw [show bp - sizeField fv + (sz + sizeField fv + sizeField nv) - 8 =
          bp + sz + sizeField nv - 8 from by omega]
        exact p5
    case neg =>
      rw [if_neg hNF] at hLsplit
      have hcondN : allocField (load32 t.mem (HDRP (NEXT_BLKP t.mem bp))) ≠ 0 := by
        rw [ena]
        exact hNF
      obtain ⟨p1, p2, p3, p4, p5, p6⟩ := coalesce_post3 t bp sz fv LC LD hh
        hsz24 hsz8 hbp8 hbp64 hfv hphv hf24 hfb (by omega) hcondP hcondN
        (hLsplit ▸ hrep) (hLsplit ▸ hok) (hLsplit ▸ hps) (hLsplit ▸ hsep3)
        (hLsplit ▸ hsepP hPF)
      rw [p1]
      simp only [if_pos hPF, if_neg hNF, Nat.add_zero, PACK_zero]
      refine ⟨trivial, p2, ?_, p4, ?_, by omega, p6⟩
      · rw [p3]
      · rw [show bp - sizeField fv + (sz + sizeField fv) - 8 = bp + sz - 8 from by omega]
        exact p5
  case neg =>
    have hcondP : allocField (load32 t.mem (FTRP t.mem (PREV_BLKP t.mem bp))) ≠ 0 ∨
        PREV_BLKP t.mem bp = bp := by
      by_cases hz : sizeField fv = 0
      · right
        rw [epb]
        omega
      · left
        have hfa : allocField fv ≠ 0 := fun h0 => hPF ⟨h0, hz⟩
        obtain ⟨hfb, hphv⟩ := hph hz
        have e_ftrpb : FTRP t.mem (PREV_BLKP t.mem bp) = bp - 8 := by
          rw [epb, FTRP, HDRP, hphv]
          omega
        rw [e_ftrpb, hfv]
        exact hfa
    by_cases hNF : allocField nv = 0
    case pos =>
      obtain ⟨hn24, hnft, hLs⟩ := hnext hNF
      have hcondN : ¬ allocField (load32 t.mem (HDRP (NEXT_BLKP t.mem bp))) ≠ 0 := by
        rw [ena]
        exact fun h2 => h2 hNF
      obtain ⟨p1, p2, p3, p4, p5, p6⟩ := coalesce_post2 t bp sz nv LA LB hh
        hsz24 hsz8 hlo hbp8 hbp64 hnv hn24 (by omega) hcondP hcondN
        (hLs ▸ hrep) (hLs ▸ hok) (hLs ▸ hps) (hLs ▸ hsep2) (hLs ▸ hsepN hNF)
        (hLs ▸ hsepBP)
      rw [p1]
      simp only [if_neg hPF, if_pos hNF, Nat.add_zero, PACK_zero]
      refine ⟨trivial, p2, ?_, p4, ?_, by omega, p6⟩
      · rw [p3]
      · rw [show bp + (sz + sizeField nv) - 8 = bp + sz + sizeField nv - 8 from by omega]
        exact p5
    case neg =>
      have hcondN : allocField (load32 t.mem (HDRP (NEXT_BLKP t.mem bp))) ≠ 0 := by
        rw [ena]
        exact hNF
      obtain ⟨p1, p2, p3, p4, p5, p6⟩ := coalesce_post1 t bp sz L hh hft
        hsz24 hsz8 hlo hbp8 hbp64 hcondP hcondN hrep hok hps hsep2 hsep3 hsepBP
      rw [p1]
      simp only [if_neg hPF, if_neg hNF, Nat.add_zero, PACK_zero]
      exact ⟨trivial, p2, by rw [p3], p4, p5, trivial, p6⟩

/-- C2 witness: the amended theorem applied to the hand-made heap
`c2w`, whose freed block at 64 has two allocated neighbors (case 1). -/
theorem c2_coalesce_spec_witness :
    (coalesce c2w 64).2 =
      (if allocField 25 = 0 ∧ sizeField 25 ≠ 0 then 64 - sizeField 25 else 64) ∧
    (coalesce c2w 64).1.brk = c2w.brk ∧
    (coalesce c2w 64).1.free_listp = (coalesce c2w 64).2 ∧
    load32 (coalesce c2w 64).1.mem ((coalesce c2w 64).2 - 4) =
      PACK (24 + (if allocField 25 = 0 ∧ sizeField 25 ≠ 0 then sizeField 25 else 0) +
        (if allocField 17 = 0 then sizeField 17 else 0)) 0 ∧
    load32 (coalesce c2w 64).1.mem ((coalesce c2w 64).2 +
        (24 + (if allocField 25 = 0 ∧ sizeField 25 ≠ 0 then sizeField 25 else 0) +
          (if allocField 17 = 0 then sizeField 17 else 0)) - 8) =
      PACK (24 + (if allocField 25 = 0 ∧ sizeField 25 ≠ 0 then sizeField 25 else 0) +
        (if allocField 17 = 0 then sizeField 17 else 0)) 0 ∧
    (coalesce c2w 64).2 +
        (24 + (if allocField 25 = 0 ∧ sizeField 25 ≠ 0 then sizeField 25 else 0) +
          (if allocField 17 = 0 then sizeField 17 else 0)) =
      64 + 24 + (if allocField 17 = 0 then sizeField 17 else 0) ∧
    repFL (coalesce c2w 64).1.mem 0 (coalesce c2w 64).2
      ((coalesce c2w 64).2 ::
        (if allocField 25 = 0 ∧ sizeField 25 ≠ 0 then [] ++ []
          else if allocField 17 = 0 then [] ++ [] else [])) = true :=
  c2_coalesce_spec c2w 64 24 25 17 [] [] [] [] [] (by decide) (by decide) (by decide)
    (by decide) (by decide) (by decide) (by decide) (by decide) (by decide) (by decide)
    (by decide) (by decide) (by decide) (by decide) (by decide) (by decide) (by decide)
    (by decide) (by decide) (by decide) (by decide) (by decide)

end MM
